import Mathlib

set_option maxRecDepth 8000

/-!
Verification model of the streaming chat front-end (`frontend/src/utils/stream.ts`
and `frontend/src/stores/chat.ts`).

Strings are modelled as `List Char` (`Str`).  The JavaScript semantics relevant
to the claims is embedded faithfully:

* `JSON.parse` is modelled by `parseJson`, a fuel-based recursive-descent JSON
  reader over `Str` (objects keep their fields in order; property lookup takes
  the last occurrence of a duplicated key, as `JSON.parse` does).
* JS truthiness is modelled by `jsTruthy`; JS string coercion by `jsToStr`
  (numbers keep their source text; coercion of nested arrays is approximated by
  the empty string — no claim touches a non-string delta value).
* `String.prototype.trim` is modelled on the ASCII whitespace subset.

All definitions are computable and reduce by `rfl`, so every concrete run used
as a witness or counterexample is evaluated by the kernel.
-/

namespace Trai

/-- Character-list strings, the base representation of all modelled JS strings. -/
abbrev Str := List Char

/-- ASCII whitespace recognised by the modelled `String.prototype.trim`. -/
def isJsWS (c : Char) : Bool :=
  c == ' ' || c == '\t' || c == '\n' || c == '\r' || c == '\x0b' || c == '\x0c'

/-- Model of `line.trim()`: strip leading and trailing whitespace. -/
def jsTrim (l : Str) : Str :=
  ((l.dropWhile isJsWS).reverse.dropWhile isJsWS).reverse

/-- JSON values as produced by the modelled `JSON.parse`.  Numbers keep their
source text (`raw`); object fields are kept in source order. -/
inductive Json where
  | null
  | bool (b : Bool)
  | num (raw : Str)
  | str (s : Str)
  | arr (elems : List Json)
  | obj (fields : List (Str × Json))

/-- Whitespace allowed between JSON tokens. -/
def isJsonWS (c : Char) : Bool :=
  c == ' ' || c == '\t' || c == '\n' || c == '\r'

/-- Skip JSON inter-token whitespace. -/
def skipWs (s : Str) : Str := s.dropWhile isJsonWS

/-- Value of a single JSON escape character (after a backslash). -/
def escChar (e : Char) : Option Char :=
  if e = '"' then some '"'
  else if e = '\\' then some '\\'
  else if e = '/' then some '/'
  else if e = 'b' then some '\x08'
  else if e = 'f' then some '\x0c'
  else if e = 'n' then some '\n'
  else if e = 'r' then some '\r'
  else if e = 't' then some '\t'
  else none

/-- Hexadecimal digit value, for `\uXXXX` escapes. -/
def hexVal (c : Char) : Option Nat :=
  if '0' ≤ c ∧ c ≤ '9' then some (c.toNat - '0'.toNat)
  else if 'a' ≤ c ∧ c ≤ 'f' then some (c.toNat - 'a'.toNat + 10)
  else if 'A' ≤ c ∧ c ≤ 'F' then some (c.toNat - 'A'.toNat + 10)
  else none

/-- Code point from four hex digits, when it is a valid scalar value.
(Surrogate escapes are out of the modelled scope and fail the parse.) -/
def hexChar (a b c d : Char) : Option Char := do
  let ha ← hexVal a
  let hb ← hexVal b
  let hc ← hexVal c
  let hd ← hexVal d
  let n := ((ha * 16 + hb) * 16 + hc) * 16 + hd
  if n < 0xd800 ∨ (0xe000 ≤ n ∧ n < 0x110000) then some (Char.ofNat n) else none

/-- Parse the body of a JSON string literal (the opening quote already
consumed); returns the decoded characters and the remaining input. -/
def parseStringAux : Str → Option (Str × Str)
  | [] => none
  | '"' :: rest => some ([], rest)
  | '\\' :: 'u' :: a :: b :: c :: d :: rest =>
    (hexChar a b c d).bind fun ch =>
      (parseStringAux rest).map fun r => (ch :: r.1, r.2)
  | '\\' :: e :: rest =>
    (escChar e).bind fun ch =>
      (parseStringAux rest).map fun r => (ch :: r.1, r.2)
  | c :: rest =>
    if c.toNat < 0x20 then none
    else (parseStringAux rest).map fun r => (c :: r.1, r.2)

/-- Span of decimal digits at the front of the input. -/
def digitSpan (s : Str) : Str × Str := (s.takeWhile Char.isDigit, s.dropWhile Char.isDigit)

/-- Integer part of a JSON number (strict: either `0` or a nonzero-led digit run). -/
def parseIntPart : Str → Option (Str × Str)
  | '0' :: r => some (['0'], r)
  | c :: r =>
    if c.isDigit then
      let d := digitSpan r
      some (c :: d.1, d.2)
    else none
  | [] => none

/-- Optional fractional part of a JSON number. -/
def parseFrac : Str → Option (Str × Str)
  | '.' :: r =>
    let d := digitSpan r
    if d.1.isEmpty then none else some ('.' :: d.1, d.2)
  | s => some ([], s)

/-- Optional exponent part of a JSON number. -/
def parseExp (s : Str) : Option (Str × Str) :=
  match s with
  | e :: r =>
    if e = 'e' ∨ e = 'E' then
      let sr : Str × Str :=
        match r with
        | '+' :: t => (['+'], t)
        | '-' :: t => (['-'], t)
        | _ => ([], r)
      let d := digitSpan sr.2
      if d.1.isEmpty then none else some (e :: (sr.1 ++ d.1), d.2)
    else some ([], s)
  | [] => some ([], [])

/-- JSON number, kept as its source text. -/
def parseNumber (s : Str) : Option (Json × Str) := do
  let np : Str × Str :=
    match s with
    | '-' :: r => (['-'], r)
    | _ => ([], s)
  let (ip, s1) ← parseIntPart np.2
  let (fp, s2) ← parseFrac s1
  let (ep, s3) ← parseExp s2
  pure (Json.num (np.1 ++ ip ++ fp ++ ep), s3)

mutual

/-- One JSON value (fuel-based recursive descent). -/
def parseVal : Nat → Str → Option (Json × Str)
  | 0, _ => none
  | fuel + 1, s =>
    match skipWs s with
    | [] => none
    | c :: rest =>
      if c = '"' then (parseStringAux rest).map fun r => (Json.str r.1, r.2)
      else if c = '\x7b' then parseFields fuel rest
      else if c = '[' then parseElems fuel rest
      else if c = 't' then
        if ("rue".data).isPrefixOf rest then some (Json.bool true, rest.drop 3) else none
      else if c = 'f' then
        if ("alse".data).isPrefixOf rest then some (Json.bool false, rest.drop 4) else none
      else if c = 'n' then
        if ("ull".data).isPrefixOf rest then some (Json.null, rest.drop 3) else none
      else parseNumber (c :: rest)

/-- Array elements, starting right after the opening bracket. -/
def parseElems : Nat → Str → Option (Json × Str)
  | 0, _ => none
  | fuel + 1, s =>
    match skipWs s with
    | ']' :: rest => some (Json.arr [], rest)
    | s1 =>
      (parseVal fuel s1).bind fun vr =>
        (parseElemsRest fuel vr.2).map fun tr => (Json.arr (vr.1 :: tr.1), tr.2)

/-- Remaining array elements after the first. -/
def parseElemsRest : Nat → Str → Option (List Json × Str)
  | 0, _ => none
  | fuel + 1, s =>
    match skipWs s with
    | ']' :: rest => some ([], rest)
    | ',' :: rest =>
      (parseVal fuel rest).bind fun vr =>
        (parseElemsRest fuel vr.2).map fun tr => (vr.1 :: tr.1, tr.2)
    | _ => none

/-- Object members, starting right after the opening brace. -/
def parseFields : Nat → Str → Option (Json × Str)
  | 0, _ => none
  | fuel + 1, s =>
    match skipWs s with
    | '\x7d' :: rest => some (Json.obj [], rest)
    | s1 =>
      (parseField fuel s1).bind fun kr =>
        (parseFieldsRest fuel kr.2).map fun tr => (Json.obj (kr.1 :: tr.1), tr.2)

/-- One `"key": value` member. -/
def parseField : Nat → Str → Option ((Str × Json) × Str)
  | 0, _ => none
  | fuel + 1, s =>
    match skipWs s with
    | '"' :: rest =>
      (parseStringAux rest).bind fun kr =>
        match skipWs kr.2 with
        | ':' :: r2 => (parseVal fuel r2).map fun vr => ((kr.1, vr.1), vr.2)
        | _ => none
    | _ => none

/-- Remaining object members after the first. -/
def parseFieldsRest : Nat → Str → Option (List (Str × Json) × Str)
  | 0, _ => none
  | fuel + 1, s =>
    match skipWs s with
    | '\x7d' :: rest => some ([], rest)
    | ',' :: rest =>
      (parseField fuel rest).bind fun kr =>
        (parseFieldsRest fuel kr.2).map fun tr => (kr.1 :: tr.1, tr.2)
    | _ => none

end

/-- Model of `JSON.parse`: `none` means the JS call throws. -/
def parseJson (s : Str) : Option Json :=
  match parseVal (2 * s.length + 2) s with
  | some (v, rest) => if (skipWs rest).isEmpty then some v else none
  | none => none

/-- Does the source text of a JSON number denote zero (all mantissa digits 0)? -/
def numIsZero (raw : Str) : Bool :=
  ((raw.takeWhile fun c => !(c == 'e' || c == 'E')).filter Char.isDigit).all (· == '0')

/-- JS truthiness of a JSON value. -/
def jsTruthy : Json → Bool
  | Json.null => false
  | Json.bool b => b
  | Json.num raw => !(numIsZero raw)
  | Json.str s => !s.isEmpty
  | Json.arr _ => true
  | Json.obj _ => true

/-- JS string coercion of a JSON value (numbers keep their source text; nested
arrays are approximated by the empty string — no claim exercises them). -/
def jsToStr : Json → Str
  | Json.null => "null".data
  | Json.bool true => "true".data
  | Json.bool false => "false".data
  | Json.num raw => raw
  | Json.str s => s
  | Json.arr _ => []
  | Json.obj _ => ("[object Object]".data)

/-- Property access `v[key]` on a parsed JSON value (`undefined` is `none`).
Duplicate keys resolve to the last occurrence, as in `JSON.parse`. -/
def jsGet (v : Json) (key : Str) : Option Json :=
  match v with
  | Json.obj fields => (fields.reverse.find? fun kv => decide (kv.1 = key)).map (·.2)
  | _ => none

/-- Model of `data.f || ''` followed by a truthiness test: the coerced string
value of a truthy field, `[]` otherwise. -/
def truthyStrField (v : Json) (key : Str) : Str :=
  match jsGet v key with
  | some x => if jsTruthy x then jsToStr x else []
  | none => []

/-- Model of `data.event === name`. -/
def eventIs (v : Json) (name : Str) : Bool :=
  match jsGet v ("event".data) with
  | some (Json.str s) => decide (s = name)
  | _ => false

/-!
Re-scanning frame decoder of `streamDifyChat` (stream.ts lines 335-414).

The JS code keeps a growable `buffer`, appends each incoming chunk, and then
repeatedly searches for the literal marker `'data: '` (`indexOf`): whenever a
second occurrence is found after the current one, the slice between them is a
complete frame; if no further occurrence exists the code waits for more input,
except on the final read (`done === true`), where the tail from the current
marker is taken as the last frame.  A frame whose trimmed text starts with
`'data: '` yields the payload after the marker; a payload equal to `[DONE]`
sets the done flag and stops the inner loop, discarding the rest of the buffer.
-/

/-- The frame marker searched for by `buffer.indexOf('data: ')`. -/
def marker : Str := "data: ".data

/-- Is there an occurrence of the marker at position `i` of `B`? -/
def occursAt (B : Str) (i : Nat) : Bool := marker.isPrefixOf (B.drop i)

/-- Linear scan for the first marker occurrence at a position in
`[s, s + fuel)`. -/
def findFrom (B : Str) : Nat → Nat → Option Nat
  | _, 0 => none
  | s, fuel + 1 => if occursAt B s then some s else findFrom B (s + 1) fuel

/-- Model of `B.indexOf('data: ', s)` (`none` for `-1`). -/
def findMarker (B : Str) (s : Nat) : Option Nat := findFrom B s (B.length + 1 - s)

/-- Result of handling one sliced frame candidate. -/
inductive LineRes where
  | stop
  | payload (p : Str)
  | skip

/-- Handling of one sliced frame (`line`): trim it, require the `'data: '`
marker at its front, and either stop on the `[DONE]` sentinel or emit the
payload after the marker. -/
def processLine (line : Str) : LineRes :=
  let dataStr := jsTrim line
  if marker.isPrefixOf dataStr then
    let jsonStr := dataStr.drop 6
    if jsonStr = ("[DONE]".data) then LineRes.stop else LineRes.payload jsonStr
  else LineRes.skip

/-- Inner scanning loop of `streamDifyChat` over the current buffer, fuelled
(the loop consumes at least six characters per emitted frame, so
`fuel = B.length` always suffices; see `runLoop`).  Returns the payloads
emitted by this pass, the remaining buffer, and whether `[DONE]` was seen. -/
def runLoopF : Nat → Str → Bool → List Str × Str × Bool
  | 0, B, _ => ([], B, false)
  | fuel + 1, B, last =>
    match findMarker B 0 with
    | none => ([], B, false)
    | some d =>
      match findMarker B (d + 6) with
      | some nd =>
        let line := (B.take nd).drop d
        let B2 := B.drop nd
        match processLine line with
        | LineRes.stop => ([], B2, true)
        | LineRes.payload p =>
          let r := runLoopF fuel B2 last
          (p :: r.1, r.2)
        | LineRes.skip => runLoopF fuel B2 last
      | none =>
        if last then
          match processLine (B.drop d) with
          | LineRes.stop => ([], [], true)
          | LineRes.payload p => ([p], [], false)
          | LineRes.skip => ([], [], false)
        else ([], B, false)

/-- One buffer-scanning pass of the re-scanning decoder. -/
def runLoop (B : Str) (last : Bool) : List Str × Str × Bool := runLoopF B.length B last

/-!
Event classification and accumulation of `streamDifyChat`
(stream.ts lines 381-404).

Each payload is `JSON.parse`d inside a `try` block whose `catch` is empty.
Consequently a parse failure silently skips the frame, and — decisive for the
`error` event — the `throw new Error(data.message || 'Dify Error')` raised for
`event === 'error'` is caught by that same empty `catch`: the session is NOT
aborted and `onError` is never reached from an `error` event.
-/

/-- Callbacks observable from one `streamDifyChat` session.  `msg` carries the
cumulative answer and the raw `conversation_id` property of the event. -/
inductive DifyCb where
  | msg (text : Str) (convId : Option Json)
  | thought (text : Str)
  | done
  | error (message : Str)

/-- The two cumulative accumulators of a session (`fullText`, `fullThought`). -/
structure DifyAcc where
  fullText : Str
  fullThought : Str

/-- Classification and accumulation of one decoded payload, exactly as in the
`try`/`catch` block of `streamDifyChat`: unparseable payloads are skipped, and
`error` events are likewise swallowed because their `throw` lands in the same
empty `catch` that guards `JSON.parse`.  `hasThought` records whether the
optional `onThought` callback was supplied. -/
def difyStep (hasThought : Bool) (acc : DifyAcc) (payload : Str) : DifyAcc × List DifyCb :=
  match parseJson payload with
  | none => (acc, [])
  | some data =>
    if eventIs data ("message".data) || eventIs data ("agent_message".data) then
      let answer := truthyStrField data ("answer".data)
      if answer.isEmpty then (acc, [])
      else
        let ft := acc.fullText ++ answer
        ({ acc with fullText := ft }, [DifyCb.msg ft (jsGet data ("conversation_id".data))])
    else if eventIs data ("agent_thought".data) && hasThought then
      let th := truthyStrField data ("thought".data)
      if th.isEmpty then (acc, [])
      else
        let t2 := acc.fullThought ++ th
        ({ acc with fullThought := t2 }, [DifyCb.thought t2])
    else (acc, [])

/-- Fold `difyStep` over a list of payloads, collecting the emitted callbacks. -/
def foldSteps (hasThought : Bool) : DifyAcc → List Str → DifyAcc × List DifyCb
  | acc, [] => (acc, [])
  | acc, p :: ps =>
    let r := difyStep hasThought acc p
    let r2 := foldSteps hasThought r.1 ps
    (r2.1, r.2 ++ r2.2)

/-- Session state of the `streamDifyChat` read loop: accumulators, decode
buffer, the `done` flag, and (as instrumentation) the callbacks and frame
payloads emitted so far, in order. -/
structure LoopSt where
  acc : DifyAcc
  buffer : Str
  finished : Bool
  cbs : List DifyCb
  out : List Str

/-- One iteration of the `while (!done)` read loop: if the `done` flag is
already set the chunk is never read; otherwise append the chunk to the buffer,
run the scanning pass, and classify each emitted payload in order. -/
def feedOne (hasThought : Bool) (st : LoopSt) (chunk : Str) (last : Bool) : LoopSt :=
  if st.finished then st
  else
    let r := runLoop (st.buffer ++ chunk) last
    let f := foldSteps hasThought st.acc r.1
    ⟨f.1, r.2.1, r.2.2, st.cbs ++ f.2, st.out ++ r.1⟩

/-- Feed a list of transport chunks (each delivered with `done = false`). -/
def feedMany (hasThought : Bool) (st : LoopSt) (chunks : List Str) : LoopSt :=
  chunks.foldl (fun s c => feedOne hasThought s c false) st

/-- Fresh session state: both accumulators empty, empty buffer, not done. -/
def initSt : LoopSt := ⟨⟨[], []⟩, [], false, [], []⟩

/-- Session state after feeding all transport chunks of a run. -/
def endState (hasThought : Bool) (chunks : List Str) : LoopSt :=
  feedMany hasThought initSt chunks

/-- How the transport run ends once the delivered chunks are exhausted:
a normal end of stream, an `AbortError` thrown at the next `reader.read()`
(cancellation), or any other transport failure (non-ok status, network error). -/
inductive Ending where
  | eos
  | abort
  | netfail (message : Str)

/-- Terminal phase of `streamDifyChat` from a given loop state: if `[DONE]`
already ended the loop, `onDone` fires; otherwise end of stream performs the
final read (empty chunk, `done = true`, flushing the buffer) and fires
`onDone`; an `AbortError` is swallowed (`console.log` only); any other error
fires `onError`.  The `finally` block is modelled in `streamDifyChat` below. -/
def difyLoopSt (hasThought : Bool) (st : LoopSt) (e : Ending) : List DifyCb :=
  if st.finished then st.cbs ++ [DifyCb.done]
  else
    match e with
    | Ending.eos => (feedOne hasThought st [] true).cbs ++ [DifyCb.done]
    | Ending.abort => st.cbs
    | Ending.netfail m => st.cbs ++ [DifyCb.error m]

/-- Frame payloads surfaced by a run from a given loop state (the flush frames
of the final read included on a normal end of stream). -/
def difyFramesSt (hasThought : Bool) (st : LoopSt) (e : Ending) : List Str :=
  if st.finished then st.out
  else
    match e with
    | Ending.eos => (feedOne hasThought st [] true).out
    | Ending.abort => st.out
    | Ending.netfail _ => st.out

/-- Callback trace of one full `streamDifyChat` session over the given
transport chunks and ending. -/
def difyCallbacks (hasThought : Bool) (chunks : List Str) (e : Ending) : List DifyCb :=
  difyLoopSt hasThought (endState hasThought chunks) e

/-- Ordered list of frame payloads decoded during one `streamDifyChat` session. -/
def difyPayloads (hasThought : Bool) (chunks : List Str) (e : Ending) : List Str :=
  difyFramesSt hasThought (endState hasThought chunks) e

/-!
Line-splitting decoders of `streamChat` (stream.ts lines 58-96) and
`streamImageChat` (stream.ts lines 156-217).

Both keep a buffer, split on `'\n'`, pop the final (possibly partial) line
back into the buffer and process the complete lines: blank lines are skipped,
a `[DONE]` payload ends the stream (discarding the remaining lines of the
chunk), other payloads are classified.  `streamChat` requires the marker
`'data: '` with the space; `streamImageChat` also accepts `'data:'` without it.
-/

/-- Callbacks observable from `streamChat` / `streamImageChat` sessions. -/
inductive TextCb where
  | msg (text : Str)
  | done
  | error (message : Str)

/-- Result of processing one complete line. -/
inductive LineOut where
  | cont (acc : Str) (out : List TextCb)
  | halt

/-- The `data.choices?.[0]?.delta?.content` optional chain (`none` for
`undefined`; the chain itself never throws thanks to `?.`). -/
def choicesDelta (data : Json) : Option Json :=
  match jsGet data ("choices".data) with
  | some (Json.arr (x :: _)) =>
    (jsGet x ("delta".data)).bind fun dl => jsGet dl ("content".data)
  | _ => none

/-- Keep a property value only when it is truthy (the `||` chain). -/
def pickTruthy (o : Option Json) : Option Json :=
  o.bind fun v => if jsTruthy v then some v else none

/-- Content extraction of `streamChat`:
`data.choices?.[0]?.delta?.content || data.content || ''`.  `none` models the
`TypeError` thrown when `data` is `null` (accessing `null.choices`), which the
surrounding `catch` then turns into a raw-text append. -/
def chatContent (data : Json) : Option Str :=
  match data with
  | Json.null => none
  | _ =>
    match pickTruthy (choicesDelta data) with
    | some v => some (jsToStr v)
    | none =>
      match pickTruthy (jsGet data ("content".data)) with
      | some v => some (jsToStr v)
      | none => some []

/-- Classification of one `streamChat` payload: parsed content is appended
when truthy; a `JSON.parse` failure (or the `null` property-access throw) falls
into the `catch`, which appends the entire payload verbatim and fires the
callback. -/
def chatStep (fullText : Str) (dataStr : Str) : Str × List TextCb :=
  match parseJson dataStr with
  | none => (fullText ++ dataStr, [TextCb.msg (fullText ++ dataStr)])
  | some data =>
    match chatContent data with
    | none => (fullText ++ dataStr, [TextCb.msg (fullText ++ dataStr)])
    | some content =>
      if content.isEmpty then (fullText, [])
      else (fullText ++ content, [TextCb.msg (fullText ++ content)])

/-- One line of `streamChat`: skip blanks, require the `'data: '` marker
(with the space), stop on `[DONE]`, classify otherwise. -/
def chatLine (fullText : Str) (line : Str) : LineOut :=
  if (jsTrim line).isEmpty then LineOut.cont fullText []
  else if ("data: ".data).isPrefixOf line then
    let dataStr := line.drop 6
    if dataStr = ("[DONE]".data) then LineOut.halt
    else
      let r := chatStep fullText dataStr
      LineOut.cont r.1 r.2
  else LineOut.cont fullText []

/-- Content extraction of `streamImageChat`:
`data.reply || data.content || data.choices?.[0]?.delta?.content || ''`.
`none` models the `TypeError` on `null.reply`, caught by the inner
`catch (jsonErr)` which falls back to the raw payload. -/
def imageContent (data : Json) : Option Str :=
  match data with
  | Json.null => none
  | _ =>
    match pickTruthy (jsGet data ("reply".data)) with
    | some v => some (jsToStr v)
    | none =>
      match pickTruthy (jsGet data ("content".data)) with
      | some v => some (jsToStr v)
      | none =>
        match pickTruthy (choicesDelta data) with
        | some v => some (jsToStr v)
        | none => some []

/-- One line of `streamImageChat`: skip blanks, accept both `'data: '` and
`'data:'` markers (slicing 6 or 5 characters), stop on `[DONE]`; payloads that
look like JSON (trimmed text starts with a brace) are parsed with a raw-text
fallback, anything else is taken as raw text; truthy content is appended. -/
def imageLine (fullText : Str) (line : Str) : LineOut :=
  if (jsTrim line).isEmpty then LineOut.cont fullText []
  else if ("data:".data).isPrefixOf line then
    let dataStr := if ("data: ".data).isPrefixOf line then line.drop 6 else line.drop 5
    if dataStr = ("[DONE]".data) then LineOut.halt
    else
      let content :=
        if ("\x7b".data).isPrefixOf (jsTrim dataStr) then
          match parseJson dataStr with
          | some d =>
            match imageContent d with
            | some c => c
            | none => dataStr
          | none => dataStr
        else dataStr
      if content.isEmpty then LineOut.cont fullText []
      else LineOut.cont (fullText ++ content) [TextCb.msg (fullText ++ content)]
  else LineOut.cont fullText []

/-- Process the complete lines of one chunk in order; `halt` (the `[DONE]`
sentinel) discards the remaining lines and reports the done flag. -/
def processLines (stepF : Str → Str → LineOut) : Str → List Str → Str × List TextCb × Bool
  | acc, [] => (acc, [], false)
  | acc, l :: ls =>
    match stepF acc l with
    | LineOut.halt => (acc, [], true)
    | LineOut.cont a out =>
      let r := processLines stepF a ls
      (r.1, out ++ r.2.1, r.2.2)

/-- Read-loop state of the line-based decoders. -/
structure LineSt where
  fullText : Str
  buffer : Str
  finished : Bool
  cbs : List TextCb

/-- One read-loop iteration of a line-based decoder: append the chunk, split
on newlines, pop the final partial line back into the buffer, process the rest. -/
def lineFeed (stepF : Str → Str → LineOut) (st : LineSt) (chunk : Str) : LineSt :=
  if st.finished then st
  else
    let parts := (st.buffer ++ chunk).splitOn '\n'
    let r := processLines stepF st.fullText parts.dropLast
    ⟨r.1, parts.getLastD [], r.2.2, st.cbs ++ r.2.1⟩

/-- Callback trace of one line-based session (`streamChat`/`streamImageChat`):
the final read delivers an empty chunk, then `onDone` fires; an `AbortError`
is swallowed; any other failure fires `onError`.  Note: these decoders never
flush a trailing partial line. -/
def lineCallbacks (stepF : Str → Str → LineOut) (chunks : List Str) (e : Ending) : List TextCb :=
  let st := chunks.foldl (lineFeed stepF) ⟨[], [], false, []⟩
  if st.finished then st.cbs ++ [TextCb.done]
  else
    match e with
    | Ending.eos => (lineFeed stepF st []).cbs ++ [TextCb.done]
    | Ending.abort => st.cbs
    | Ending.netfail m => st.cbs ++ [TextCb.error m]

/-- Callback trace of one `streamChat` session. -/
def chatCallbacks (chunks : List Str) (e : Ending) : List TextCb :=
  lineCallbacks chatLine chunks e

/-- Callback trace of one `streamImageChat` session. -/
def imageCallbacks (chunks : List Str) (e : Ending) : List TextCb :=
  lineCallbacks imageLine chunks e

/-!
Shared abort-controller slot (stream.ts lines 22-23, 105-107, 124-125,
226-228, 285-287, 423-425).

All three streaming functions execute `chatStore.abortController = controller`
before calling `fetch`, and reset the same store field to `null` in their
`finally` block on every exit path.  The store-level effects of a call are
modelled as an event list.
-/

/-- Store-level events of one streaming call: writes to the shared
`chatStore.abortController` slot, the opening of the transport request, and
the user-facing callbacks. -/
inductive StoreEv (cb : Type) where
  | setCtrl (c : Option Nat)
  | openReq
  | emit (c : cb)

/-- Value held by the shared `abortController` slot after a list of store
events (plain assignment semantics: the last write wins). -/
def slotAfter (v : Option Nat) : List (StoreEv cb) → Option Nat
  | [] => v
  | StoreEv.setCtrl c :: r => slotAfter c r
  | _ :: r => slotAfter v r

/-- Store-event trace of one `streamDifyChat` call (`cid` identifies the
freshly created `AbortController`): assign the slot, open the request, run the
session, and reset the slot in `finally`. -/
def streamDifyChat (cid : Nat) (hasThought : Bool) (chunks : List Str) (e : Ending) :
    List (StoreEv DifyCb) :=
  StoreEv.setCtrl (some cid) :: StoreEv.openReq ::
    ((difyCallbacks hasThought chunks e).map StoreEv.emit ++ [StoreEv.setCtrl none])

/-- Store-event trace of one `streamChat` call. -/
def streamChat (cid : Nat) (chunks : List Str) (e : Ending) : List (StoreEv TextCb) :=
  StoreEv.setCtrl (some cid) :: StoreEv.openReq ::
    ((chatCallbacks chunks e).map StoreEv.emit ++ [StoreEv.setCtrl none])

/-- Store-event trace of one `streamImageChat` call. -/
def streamImageChat (cid : Nat) (chunks : List Str) (e : Ending) : List (StoreEv TextCb) :=
  StoreEv.setCtrl (some cid) :: StoreEv.openReq ::
    ((imageCallbacks chunks e).map StoreEv.emit ++ [StoreEv.setCtrl none])

/-!
Conversation-identity reconciliation (`sendMessage`, chat.ts lines 496-547,
with `addTempDifyConversation` lines 197-211 and `updateTempDifyConversation`
lines 214-225).

`sendMessage` snapshots `difySessionId` (`initialConversationId`); when it is
falsy a temporary conversation record is unshifted onto the list.  Inside the
`onMessage` delta callback, the first time `conversationId` is truthy while
`difySessionId` is still falsy, the session id is set, the temporary record is
swapped in place to the real id, and `onConversationCreated` is invoked (once).
-/

/-- A Dify conversation record, reduced to the fields the reconciler touches. -/
structure ConvRec where
  id : Json
  is_temp : Bool

/-- The chat store state relevant to identity reconciliation. -/
structure ChatStore where
  difySessionId : Option Json
  difyConversations : List ConvRec

/-- Model of `addTempDifyConversation`: unshift a placeholder record. -/
def addTempDifyConversation (st : ChatStore) (tempId : Str) : ChatStore :=
  { st with difyConversations := ⟨Json.str tempId, true⟩ :: st.difyConversations }

/-- Does a record's `id` equal (`===`) the temp id string? -/
def idMatches (c : ConvRec) (tempId : Str) : Bool :=
  match c.id with
  | Json.str s => decide (s = tempId)
  | _ => false

/-- Does the current `difySessionId` equal (`===`) the temp id string? -/
def sidMatches (sid : Option Json) (tempId : Str) : Bool :=
  match sid with
  | some (Json.str s) => decide (s = tempId)
  | _ => false

/-- Model of `updateTempDifyConversation`: find the record whose id is the
temp id, overwrite its id with the real one, clear `is_temp` in place, and
update `difySessionId` if it still holds the temp id. -/
def updateTempDifyConversation (st : ChatStore) (tempId : Str) (realId : Json) : ChatStore :=
  match st.difyConversations.findIdx? (fun c => idMatches c tempId) with
  | none => st
  | some i =>
    { difySessionId :=
        if sidMatches st.difySessionId tempId then some realId else st.difySessionId,
      difyConversations := st.difyConversations.set i ⟨realId, false⟩ }

/-- JS truthiness of an optional property value (`undefined` is falsy). -/
def truthyOpt : Option Json → Bool
  | none => false
  | some v => jsTruthy v

/-- State threaded through `sendMessage`'s delta callback: the store and the
number of `onConversationCreated` invocations so far. -/
structure SendSt where
  store : ChatStore
  notif : Nat

/-- The body of `sendMessage`'s `onMessage` callback, identity part: when the
event's `conversationId` is truthy and `difySessionId` is still falsy, set the
session id, swap the placeholder (if one was created for this session), and
invoke `onConversationCreated` when this is a new session and the callback was
supplied. -/
def onMsgUpdate (tempConv : Option Str) (initialAbsent hasCb : Bool)
    (s : SendSt) (convId : Option Json) : SendSt :=
  if truthyOpt convId && !(truthyOpt s.store.difySessionId) then
    let st1 := { s.store with difySessionId := convId }
    let st2 :=
      match tempConv with
      | some t => updateTempDifyConversation st1 t (convId.getD Json.null)
      | none => st1
    ⟨st2, if initialAbsent && hasCb then s.notif + 1 else s.notif⟩
  else s

/-- Dispatch of one session callback inside `sendMessage`: only the delta
callback (`onMessage`) touches the identity state. -/
def sendStep (tempConv : Option Str) (initialAbsent hasCb : Bool)
    (s : SendSt) (cb : DifyCb) : SendSt :=
  match cb with
  | DifyCb.msg _ c => onMsgUpdate tempConv initialAbsent hasCb s c
  | _ => s

/-- Model of the Dify branch of `sendMessage`: snapshot the session id, create
the placeholder when it is falsy, run `streamDifyChat` (no `onThought` is
passed), and fold the delta callbacks through the identity reconciler. -/
def runSendMessage (st : ChatStore) (tempId : Str) (hasCb : Bool)
    (chunks : List Str) (e : Ending) : SendSt :=
  let initialAbsent := !(truthyOpt st.difySessionId)
  let stArg := if initialAbsent then addTempDifyConversation st tempId else st
  let tempConv : Option Str := if initialAbsent then some tempId else none
  (difyCallbacks false chunks e).foldl (sendStep tempConv initialAbsent hasCb) ⟨stArg, 0⟩

/-- The conversation id carried by the first delta callback whose
`conversationId` is truthy. -/
def firstRealConv : List DifyCb → Option Json
  | [] => none
  | DifyCb.msg _ c :: rest => if truthyOpt c then c else firstRealConv rest
  | _ :: rest => firstRealConv rest

/-! Lemmas about marker search in the re-scanning decoder. -/

lemma take_append_le (n : Nat) (B C : Str) (h : n ≤ B.length) :
    (B ++ C).take n = B.take n := by
  have h2 : (B.take n).length = n := by
    simp [List.length_take, Nat.min_eq_left h]
  conv_lhs => rw [← List.take_append_drop n B]
  rw [List.append_assoc, List.take_left' h2]

lemma drop_append_le (n : Nat) (B C : Str) (h : n ≤ B.length) :
    (B ++ C).drop n = B.drop n ++ C := by
  have h2 : (B.take n).length = n := by
    simp [List.length_take, Nat.min_eq_left h]
  conv_lhs => rw [← List.take_append_drop n B]
  rw [List.append_assoc, List.drop_left' h2]

lemma isPrefixOf_append_left (l x y : Str) (h : l.length ≤ x.length) :
    l.isPrefixOf (x ++ y) = l.isPrefixOf x := by
  induction l generalizing x with
  | nil => simp [List.isPrefixOf]
  | cons a l ih =>
    cases x with
    | nil => simp at h
    | cons b x =>
      show (a == b && l.isPrefixOf (x ++ y)) = (a == b && l.isPrefixOf x)
      rw [ih x (by simpa using h)]

lemma occursAt_length {B : Str} {i : Nat} (h : occursAt B i = true) :
    i + 6 ≤ B.length := by
  unfold occursAt at h
  have hp : marker <+: B.drop i := by simpa using h
  have hl := hp.sublist.length_le
  have hm : marker.length = 6 := rfl
  rw [hm, List.length_drop] at hl
  omega

lemma occursAt_append_of_le (B C : Str) (i : Nat) (h : i + 6 ≤ B.length) :
    occursAt (B ++ C) i = occursAt B i := by
  unfold occursAt
  rw [drop_append_le i B C (by omega)]
  have hlen : marker.length ≤ (B.drop i).length := by
    have hm : marker.length = 6 := rfl
    rw [hm, List.length_drop]
    omega
  exact isPrefixOf_append_left marker (B.drop i) C hlen

lemma findFrom_eq_some {B : Str} : ∀ {fuel s d : Nat},
    findFrom B s fuel = some d ↔
      (s ≤ d ∧ d < s + fuel ∧ occursAt B d = true ∧
        ∀ i, s ≤ i → i < d → occursAt B i = false) := by
  intro fuel
  induction fuel with
  | zero =>
    intro s d
    simp only [findFrom]
    constructor
    · intro h; exact absurd h (by simp)
    · rintro ⟨h1, h2, -, -⟩; omega
  | succ n ih =>
    intro s d
    simp only [findFrom]
    by_cases h : occursAt B s
    · simp only [h, if_pos rfl, if_true]
      constructor
      · rintro hsd
        injection hsd with hsd
        subst hsd
        exact ⟨Nat.le_refl _, by omega, h, fun i h1 h2 => by omega⟩
      · rintro ⟨h1, h2, h3, h4⟩
        by_cases hne : s = d
        · subst hne; rfl
        · exact absurd (h4 s (Nat.le_refl _) (by omega)) (by simp [h])
    · simp only [h, if_neg, if_false, Bool.false_eq_true, not_false_iff]
      rw [@ih (s + 1) d]
      constructor
      · rintro ⟨h1, h2, h3, h4⟩
        refine ⟨by omega, by omega, h3, fun i hi1 hi2 => ?_⟩
        by_cases his : i = s
        · subst his; simpa using h
        · exact h4 i (by omega) hi2
      · rintro ⟨h1, h2, h3, h4⟩
        have hsd : s ≠ d := by
          rintro rfl
          exact absurd h3 (by simp [h])
        refine ⟨by omega, by omega, h3, fun i hi1 hi2 => h4 i (by omega) hi2⟩

lemma findFrom_eq_none {B : Str} : ∀ {fuel s : Nat},
    findFrom B s fuel = none ↔ ∀ i, s ≤ i → i < s + fuel → occursAt B i = false := by
  intro fuel
  induction fuel with
  | zero =>
    intro s
    constructor
    · intro _ i h1 h2; omega
    · intro _; rfl
  | succ n ih =>
    intro s
    simp only [findFrom]
    by_cases h : occursAt B s
    · simp only [h, if_true]
      constructor
      · intro hc; exact absurd hc (by simp)
      · intro hall
        exact absurd (hall s (Nat.le_refl _) (by omega)) (by simp [h])
    · simp only [h, if_neg, Bool.false_eq_true, not_false_iff, if_false]
      rw [@ih (s + 1)]
      constructor
      · intro hall i h1 h2
        by_cases his : i = s
        · subst his; simpa using h
        · exact hall i (by omega) (by omega)
      · intro hall i h1 h2
        exact hall i (by omega) (by omega)

lemma findMarker_eq_some {B : Str} {s d : Nat} :
    findMarker B s = some d ↔
      (s ≤ d ∧ occursAt B d = true ∧ ∀ i, s ≤ i → i < d → occursAt B i = false) := by
  unfold findMarker
  rw [findFrom_eq_some]
  constructor
  · rintro ⟨h1, h2, h3, h4⟩; exact ⟨h1, h3, h4⟩
  · rintro ⟨h1, h2, h3⟩
    have hd := occursAt_length h2
    refine ⟨h1, by omega, h2, h3⟩

lemma findMarker_eq_none {B : Str} {s : Nat} :
    findMarker B s = none ↔ ∀ i, s ≤ i → occursAt B i = false := by
  unfold findMarker
  rw [findFrom_eq_none]
  constructor
  · intro hall i h1
    by_cases hbig : i < s + (B.length + 1 - s)
    · exact hall i h1 hbig
    · by_contra hc
      have h2 : occursAt B i = true := by
        cases hx : occursAt B i
        · exact absurd hx hc
        · rfl
      have := occursAt_length h2
      omega
  · intro hall i h1 _
    exact hall i h1

lemma findMarker_append {B C : Str} {s d : Nat} (h : findMarker B s = some d) :
    findMarker (B ++ C) s = some d := by
  rw [findMarker_eq_some] at h ⊢
  obtain ⟨h1, h2, h3⟩ := h
  have hd := occursAt_length h2
  refine ⟨h1, ?_, fun i hi1 hi2 => ?_⟩
  · rw [occursAt_append_of_le B C d hd]; exact h2
  · rw [occursAt_append_of_le B C i (by omega)]
    exact h3 i hi1 hi2

/-! Unfolding lemmas for the scanning loop, and fuel irrelevance. -/

lemma occursAt_nil (i : Nat) : occursAt [] i = false := by
  unfold occursAt
  rw [List.drop_nil]
  rfl

lemma findMarker_nil (s : Nat) : findMarker ([] : Str) s = none :=
  findMarker_eq_none.mpr fun i _ => occursAt_nil i

lemma runLoopF_nil (f : Nat) (last : Bool) : runLoopF f ([] : Str) last = ([], [], false) := by
  cases f with
  | zero => rfl
  | succ k => simp [runLoopF, findMarker_nil]

lemma runLoopF_fuel : ∀ n f1 f2 : Nat, ∀ B : Str, ∀ last : Bool,
    B.length ≤ n → B.length ≤ f1 → B.length ≤ f2 →
    runLoopF f1 B last = runLoopF f2 B last := by
  intro n
  induction n with
  | zero =>
    intro f1 f2 B last hn h1 h2
    have hB : B = [] := List.eq_nil_of_length_eq_zero (by omega)
    subst hB
    rw [runLoopF_nil, runLoopF_nil]
  | succ n ih =>
    intro f1 f2 B last hn h1 h2
    by_cases hB0 : B.length = 0
    · have hB : B = [] := List.eq_nil_of_length_eq_zero hB0
      subst hB
      rw [runLoopF_nil, runLoopF_nil]
    · cases f1 with
      | zero => omega
      | succ f1 =>
        cases f2 with
        | zero => omega
        | succ f2 =>
          simp only [runLoopF]
          rcases h0 : findMarker B 0 with _ | d
          · simp only [h0]
          · rcases h6 : findMarker B (d + 6) with _ | nd
            · simp only [h0, h6]
            · obtain ⟨hge, hocc, -⟩ := findMarker_eq_some.mp h6
              have hnd6 : nd + 6 ≤ B.length := occursAt_length hocc
              have hrec : runLoopF f1 (B.drop nd) last = runLoopF f2 (B.drop nd) last := by
                apply ih f1 f2 (B.drop nd) last <;> rw [List.length_drop] <;> omega
              simp only [h0, h6]
              cases hpl : processLine ((B.take nd).drop d) <;> simp [hpl, hrec]

lemma runLoop_none {B : Str} {last : Bool} (h : findMarker B 0 = none) :
    runLoop B last = ([], B, false) := by
  unfold runLoop
  rcases hL : B.length with _ | n
  · rfl
  · simp [runLoopF, h]

lemma runLoop_break {B : Str} {d : Nat} (h0 : findMarker B 0 = some d)
    (h6 : findMarker B (d + 6) = none) :
    runLoop B false = ([], B, false) := by
  obtain ⟨-, hocc, -⟩ := findMarker_eq_some.mp h0
  have hd6 : d + 6 ≤ B.length := occursAt_length hocc
  unfold runLoop
  rcases hL : B.length with _ | n
  · omega
  · simp [runLoopF, h0, h6]

lemma runLoop_flush {B : Str} {d : Nat} (h0 : findMarker B 0 = some d)
    (h6 : findMarker B (d + 6) = none) :
    runLoop B true =
      (match processLine (B.drop d) with
       | LineRes.stop => ([], [], true)
       | LineRes.payload p => ([p], [], false)
       | LineRes.skip => ([], [], false)) := by
  obtain ⟨-, hocc, -⟩ := findMarker_eq_some.mp h0
  have hd6 : d + 6 ≤ B.length := occursAt_length hocc
  unfold runLoop
  rcases hL : B.length with _ | n
  · omega
  · simp [runLoopF, h0, h6]

lemma runLoop_cut {B : Str} {d nd : Nat} {last : Bool} (h0 : findMarker B 0 = some d)
    (h6 : findMarker B (d + 6) = some nd) :
    runLoop B last =
      (match processLine ((B.take nd).drop d) with
       | LineRes.stop => ([], B.drop nd, true)
       | LineRes.payload p =>
         (p :: (runLoop (B.drop nd) last).1, (runLoop (B.drop nd) last).2)
       | LineRes.skip => runLoop (B.drop nd) last) := by
  obtain ⟨hge, hocc, -⟩ := findMarker_eq_some.mp h6
  have hnd6 : nd + 6 ≤ B.length := occursAt_length hocc
  conv_lhs => unfold runLoop
  rcases hL : B.length with _ | n
  · omega
  · have hrec2 : runLoopF n (B.drop nd) last = runLoop (B.drop nd) last := by
      unfold runLoop
      apply runLoopF_fuel (B.drop nd).length <;> (rw [List.length_drop]; try omega)
    simp only [runLoopF, h0, h6]
    cases hpl : processLine ((B.take nd).drop d) <;> simp only [hpl, hrec2]

/-- Composition of scanning passes: scanning `B ++ C` in one pass agrees with
first scanning `B` (as a non-final pass) and then scanning the leftover buffer
extended by `C`.  When the `B`-pass already saw `[DONE]`, the combined pass
emits the same payloads and stops as well. -/
lemma runLoop_append : ∀ n : Nat, ∀ B : Str, B.length ≤ n → ∀ (C : Str) (last : Bool),
    runLoop (B ++ C) last =
      (match runLoop B false with
       | (ps, B2, true) => (ps, B2 ++ C, true)
       | (ps, B2, false) =>
         (ps ++ (runLoop (B2 ++ C) last).1, (runLoop (B2 ++ C) last).2)) := by
  intro n
  induction n with
  | zero =>
    intro B hB C last
    have hBnil : B = [] := List.eq_nil_of_length_eq_zero (by omega)
    subst hBnil
    rfl
  | succ n ih =>
    intro B hB C last
    rcases h0 : findMarker B 0 with _ | d
    · rw [runLoop_none h0]
      rfl
    · rcases h6 : findMarker B (d + 6) with _ | nd
      · rw [runLoop_break h0 h6]
        rfl
      · obtain ⟨hge, hocc, -⟩ := findMarker_eq_some.mp h6
        have hnd6 : nd + 6 ≤ B.length := occursAt_length hocc
        have hc0 : findMarker (B ++ C) 0 = some d := findMarker_append h0
        have hc6 : findMarker (B ++ C) (d + 6) = some nd := findMarker_append h6
        rw [runLoop_cut hc0 hc6, runLoop_cut h0 h6,
          take_append_le nd B C (by omega), drop_append_le nd B C (by omega)]
        have hih := ih (B.drop nd) (by rw [List.length_drop]; omega) C last
        cases hpl : processLine ((B.take nd).drop d) with
        | stop => simp
        | payload p =>
          rcases hr : runLoop (B.drop nd) false with ⟨ps, B2, dn⟩
          rw [hr] at hih
          cases dn
          · simp only at hih
            simp [hih]
          · simp only at hih
            simp [hih]
        | skip =>
          rcases hr : runLoop (B.drop nd) false with ⟨ps, B2, dn⟩
          rw [hr] at hih
          cases dn
          · simp only at hih
            simp [hih]
          · simp only at hih
            simp [hih]

/-! Composition of read-loop iterations of `streamDifyChat`. -/

/-- Observational equivalence of loop states: all components agree, except
that the buffers of two already-finished states may differ (a finished
session never reads its buffer again). -/
def StEq (s1 s2 : LoopSt) : Prop :=
  s1.acc = s2.acc ∧ s1.finished = s2.finished ∧ s1.cbs = s2.cbs ∧ s1.out = s2.out ∧
    (s1.finished = false → s1.buffer = s2.buffer)

lemma stEq_refl (s : LoopSt) : StEq s s := ⟨rfl, rfl, rfl, rfl, fun _ => rfl⟩

lemma stEq_trans {a b c : LoopSt} (h1 : StEq a b) (h2 : StEq b c) : StEq a c := by
  obtain ⟨x1, x2, x3, x4, x5⟩ := h1
  obtain ⟨y1, y2, y3, y4, y5⟩ := h2
  refine ⟨x1.trans y1, x2.trans y2, x3.trans y3, x4.trans y4, fun h => ?_⟩
  rw [x5 h, y5 (by rw [← x2]; exact h)]

lemma foldSteps_append (ht : Bool) (acc : DifyAcc) (ps qs : List Str) :
    foldSteps ht acc (ps ++ qs) =
      ((foldSteps ht (foldSteps ht acc ps).1 qs).1,
       (foldSteps ht acc ps).2 ++ (foldSteps ht (foldSteps ht acc ps).1 qs).2) := by
  induction ps generalizing acc with
  | nil => simp [foldSteps]
  | cons p ps ih => simp [foldSteps, ih, List.append_assoc]

lemma feedOne_finished {ht : Bool} {st : LoopSt} {c : Str} {l : Bool}
    (h : st.finished = true) : feedOne ht st c l = st := by
  simp [feedOne, h]

lemma feedOne_unfold {ht : Bool} {st : LoopSt} {c : Str} {l : Bool}
    (h : st.finished = false) :
    feedOne ht st c l =
      ⟨(foldSteps ht st.acc (runLoop (st.buffer ++ c) l).1).1,
       (runLoop (st.buffer ++ c) l).2.1,
       (runLoop (st.buffer ++ c) l).2.2,
       st.cbs ++ (foldSteps ht st.acc (runLoop (st.buffer ++ c) l).1).2,
       st.out ++ (runLoop (st.buffer ++ c) l).1⟩ := by
  simp [feedOne, h]

lemma feedOne_congr {ht : Bool} {s1 s2 : LoopSt} {c : Str} {l : Bool}
    (h : StEq s1 s2) : StEq (feedOne ht s1 c l) (feedOne ht s2 c l) := by
  obtain ⟨ha, hf, hc, ho, hb⟩ := h
  cases hfin : s1.finished with
  | true =>
    rw [feedOne_finished hfin, feedOne_finished (by rw [← hf]; exact hfin)]
    exact ⟨ha, hf, hc, ho, hb⟩
  | false =>
    have hfin2 : s2.finished = false := by rw [← hf]; exact hfin
    rw [feedOne_unfold hfin, feedOne_unfold hfin2, ha, hc, ho, hb hfin]
    exact stEq_refl _

lemma feedOne_split (ht : Bool) (s : LoopSt) (a b : Str) (h : s.finished = false) :
    StEq (feedOne ht (feedOne ht s a false) b false) (feedOne ht s (a ++ b) false) := by
  have h1 := @feedOne_unfold ht s a false h
  have happ := runLoop_append (s.buffer ++ a).length (s.buffer ++ a) (Nat.le_refl _) b false
  rcases hr : runLoop (s.buffer ++ a) false with ⟨ps, B2, dn⟩
  rw [hr] at h1 happ
  cases dn with
  | true =>
    have hfin : (feedOne ht s a false).finished = true := by rw [h1]
    rw [feedOne_finished hfin, h1, feedOne_unfold h, ← List.append_assoc, happ]
    exact ⟨rfl, rfl, rfl, rfl, fun hco => absurd hco (by simp)⟩
  | false =>
    simp only at happ
    have hfin : (feedOne ht s a false).finished = false := by rw [h1]
    rcases hq : runLoop (B2 ++ b) false with ⟨qs, B3, dn2⟩
    rw [hq] at happ
    rw [feedOne_unfold hfin, h1, feedOne_unfold h, ← List.append_assoc, happ]
    simp only [hq]
    refine ⟨?_, rfl, ?_, ?_, fun _ => rfl⟩ <;>
      simp [foldSteps_append, List.append_assoc]

lemma feedMany_congr {ht : Bool} {s1 s2 : LoopSt} (cs : List Str)
    (h : StEq s1 s2) : StEq (feedMany ht s1 cs) (feedMany ht s2 cs) := by
  induction cs generalizing s1 s2 with
  | nil => exact h
  | cons c cs ih => exact ih (feedOne_congr h)

lemma feedMany_after (ht : Bool) : ∀ cs : List Str, ∀ (s : LoopSt) (a : Str),
    s.finished = false →
    StEq (feedMany ht (feedOne ht s a false) cs) (feedOne ht s (a ++ cs.flatten) false) := by
  intro cs
  induction cs with
  | nil =>
    intro s a h
    simp only [feedMany, List.foldl_nil, List.flatten_nil, List.append_nil]
    exact stEq_refl _
  | cons c cs ih =>
    intro s a h
    have step : StEq (feedOne ht (feedOne ht s a false) c false)
        (feedOne ht s (a ++ c) false) := feedOne_split ht s a c h
    have h1 : StEq (feedMany ht (feedOne ht (feedOne ht s a false) c false) cs)
        (feedMany ht (feedOne ht s (a ++ c) false) cs) := feedMany_congr cs step
    have h2 := ih s (a ++ c) h
    have h3 := stEq_trans h1 h2
    simp only [List.flatten_cons, ← List.append_assoc]
    exact h3

/-- Feeding the chunks one by one is observationally the same as feeding their
concatenation as a single chunk. -/
lemma endState_flatten (ht : Bool) (cs : List Str) :
    StEq (endState ht cs) (endState ht [cs.flatten]) := by
  cases cs with
  | nil => exact stEq_refl initSt
  | cons c cs =>
    have h := feedMany_after ht cs initSt c rfl
    simpa [endState, feedMany, List.flatten_cons] using h

lemma difyLoopSt_congr {ht : Bool} {s1 s2 : LoopSt} {e : Ending}
    (h : StEq s1 s2) : difyLoopSt ht s1 e = difyLoopSt ht s2 e := by
  obtain ⟨ha, hf, hc, ho, hb⟩ := h
  unfold difyLoopSt
  cases hfin : s1.finished with
  | true =>
    rw [← hf, hfin, hc]
    simp
  | false =>
    rw [← hf, hfin]
    have hcb : (feedOne ht s1 [] true).cbs = (feedOne ht s2 [] true).cbs :=
      (feedOne_congr ⟨ha, hf, hc, ho, hb⟩).2.2.1
    cases e <;> simp [hc, hcb]

lemma difyFramesSt_congr {ht : Bool} {s1 s2 : LoopSt} {e : Ending}
    (h : StEq s1 s2) : difyFramesSt ht s1 e = difyFramesSt ht s2 e := by
  obtain ⟨ha, hf, hc, ho, hb⟩ := h
  unfold difyFramesSt
  cases hfin : s1.finished with
  | true =>
    rw [← hf, hfin, ho]
    simp
  | false =>
    rw [← hf, hfin]
    have hcb : (feedOne ht s1 [] true).out = (feedOne ht s2 [] true).out :=
      (feedOne_congr ⟨ha, hf, hc, ho, hb⟩).2.2.2.1
    cases e <;> simp [ho, hcb]

/-! Monotone accumulation: the answer and thought channels. -/

/-- Cumulative answer values passed to the delta callback, in order. -/
def msgTexts (l : List DifyCb) : List Str :=
  l.filterMap fun c =>
    match c with
    | DifyCb.msg t _ => some t
    | _ => none

/-- Cumulative thought values passed to the thought callback, in order. -/
def thoughtTexts (l : List DifyCb) : List Str :=
  l.filterMap fun c =>
    match c with
    | DifyCb.thought t => some t
    | _ => none

/-- Shape analysis of one classification step: it either leaves the state
untouched and emits nothing, appends a nonempty answer delta and emits the new
cumulative answer, or appends a nonempty thought delta and emits the new
cumulative thought. -/
lemma difyStep_shape (ht : Bool) (acc : DifyAcc) (p : Str) :
    difyStep ht acc p = (acc, []) ∨
    (∃ ans cid, ans ≠ [] ∧
      difyStep ht acc p =
        (⟨acc.fullText ++ ans, acc.fullThought⟩, [DifyCb.msg (acc.fullText ++ ans) cid])) ∨
    (∃ th, th ≠ [] ∧
      difyStep ht acc p =
        (⟨acc.fullText, acc.fullThought ++ th⟩, [DifyCb.thought (acc.fullThought ++ th)])) := by
  unfold difyStep
  cases hps : parseJson p with
  | none => left; rfl
  | some data =>
    dsimp only
    by_cases h1 : (eventIs data ("message".data) || eventIs data ("agent_message".data)) = true
    · rw [if_pos h1]
      by_cases h2 : (truthyStrField data ("answer".data)).isEmpty = true
      · rw [if_pos h2]; left; rfl
      · rw [if_neg h2]
        right; left
        refine ⟨truthyStrField data ("answer".data), jsGet data ("conversation_id".data),
          ?_, rfl⟩
        simpa [List.isEmpty_iff] using h2
    · rw [if_neg h1]
      by_cases h3 : (eventIs data ("agent_thought".data) && ht) = true
      · rw [if_pos h3]
        by_cases h4 : (truthyStrField data ("thought".data)).isEmpty = true
        · rw [if_pos h4]; left; rfl
        · rw [if_neg h4]
          right; right
          refine ⟨truthyStrField data ("thought".data), ?_, rfl⟩
          simpa [List.isEmpty_iff] using h4
      · rw [if_neg h3]; left; rfl

lemma chain_snoc_mono {l : List Str} {x y : Str}
    (h : List.Chain' (· <+: ·) (l ++ [x])) (hxy : x <+: y) :
    List.Chain' (· <+: ·) (l ++ [y]) := by
  rw [List.chain'_append] at h ⊢
  obtain ⟨h1, h2, h3⟩ := h
  refine ⟨h1, List.chain'_singleton _, fun a ha b hb => ?_⟩
  simp only [List.head?_cons, Option.mem_def, Option.some.injEq] at hb
  subst hb
  exact (h3 a ha x (by simp)).trans hxy

lemma chain_snoc_dup {l : List Str} {y : Str}
    (h : List.Chain' (· <+: ·) (l ++ [y])) :
    List.Chain' (· <+: ·) ((l ++ [y]) ++ [y]) := by
  rw [List.chain'_append]
  refine ⟨h, List.chain'_singleton _, fun a ha b hb => ?_⟩
  simp only [List.getLast?_concat, Option.mem_def, Option.some.injEq] at ha
  simp only [List.head?_cons, Option.mem_def, Option.some.injEq] at hb
  subst ha
  subst hb
  exact List.prefix_rfl

lemma foldSteps_msg_chain (ht : Bool) : ∀ (ps : List Str) (acc : DifyAcc) (pre : List Str),
    List.Chain' (· <+: ·) (pre ++ [acc.fullText]) →
    List.Chain' (· <+: ·)
      ((pre ++ msgTexts (foldSteps ht acc ps).2) ++ [(foldSteps ht acc ps).1.fullText]) := by
  intro ps
  induction ps with
  | nil =>
    intro acc pre h
    simpa [foldSteps, msgTexts] using h
  | cons p ps ih =>
    intro acc pre h
    rcases difyStep_shape ht acc p with heq | ⟨ans, cid, hne, heq⟩ | ⟨th, hne, heq⟩
    · simp only [foldSteps, heq]
      simpa [msgTexts] using ih acc pre h
    · simp only [foldSteps, heq]
      have h2 : List.Chain' (· <+: ·)
          ((pre ++ [acc.fullText ++ ans]) ++ [acc.fullText ++ ans]) :=
        chain_snoc_dup (chain_snoc_mono h (List.prefix_append _ _))
      have h3 := ih ⟨acc.fullText ++ ans, acc.fullThought⟩ (pre ++ [acc.fullText ++ ans]) h2
      simpa [msgTexts, List.append_assoc] using h3
    · simp only [foldSteps, heq]
      have h3 := ih ⟨acc.fullText, acc.fullThought ++ th⟩ pre (by simpa using h)
      simpa [msgTexts, thoughtTexts] using h3

lemma foldSteps_thought_chain (ht : Bool) : ∀ (ps : List Str) (acc : DifyAcc) (pre : List Str),
    List.Chain' (· <+: ·) (pre ++ [acc.fullThought]) →
    List.Chain' (· <+: ·)
      ((pre ++ thoughtTexts (foldSteps ht acc ps).2) ++ [(foldSteps ht acc ps).1.fullThought]) := by
  intro ps
  induction ps with
  | nil =>
    intro acc pre h
    simpa [foldSteps, thoughtTexts] using h
  | cons p ps ih =>
    intro acc pre h
    rcases difyStep_shape ht acc p with heq | ⟨ans, cid, hne, heq⟩ | ⟨th, hne, heq⟩
    · simp only [foldSteps, heq]
      simpa [thoughtTexts] using ih acc pre h
    · simp only [foldSteps, heq]
      have h3 := ih ⟨acc.fullText ++ ans, acc.fullThought⟩ pre (by simpa using h)
      simpa [thoughtTexts] using h3
    · simp only [foldSteps, heq]
      have h2 : List.Chain' (· <+: ·)
          ((pre ++ [acc.fullThought ++ th]) ++ [acc.fullThought ++ th]) :=
        chain_snoc_dup (chain_snoc_mono h (List.prefix_append _ _))
      have h3 := ih ⟨acc.fullText, acc.fullThought ++ th⟩ (pre ++ [acc.fullThought ++ th]) h2
      simpa [thoughtTexts, List.append_assoc] using h3

/-- Invariant: the cumulative answers emitted so far, anchored by the current
accumulator value, form a prefix chain; same for the thought channel. -/
def GoodAcc (st : LoopSt) : Prop :=
  List.Chain' (· <+: ·) (msgTexts st.cbs ++ [st.acc.fullText]) ∧
  List.Chain' (· <+: ·) (thoughtTexts st.cbs ++ [st.acc.fullThought])

lemma feedOne_goodAcc {ht : Bool} {st : LoopSt} {c : Str} {l : Bool}
    (h : GoodAcc st) : GoodAcc (feedOne ht st c l) := by
  cases hf : st.finished with
  | true => rw [feedOne_finished hf]; exact h
  | false =>
    rw [feedOne_unfold hf]
    constructor
    · have := foldSteps_msg_chain ht (runLoop (st.buffer ++ c) l).1 st.acc
        (msgTexts st.cbs) h.1
      simpa [msgTexts, List.append_assoc] using this
    · have := foldSteps_thought_chain ht (runLoop (st.buffer ++ c) l).1 st.acc
        (thoughtTexts st.cbs) h.2
      simpa [thoughtTexts, List.append_assoc] using this

lemma feedMany_goodAcc {ht : Bool} {st : LoopSt} (cs : List Str)
    (h : GoodAcc st) : GoodAcc (feedMany ht st cs) := by
  induction cs generalizing st with
  | nil => exact h
  | cons c cs ih => exact ih (feedOne_goodAcc h)

lemma endState_goodAcc (ht : Bool) (cs : List Str) : GoodAcc (endState ht cs) := by
  apply feedMany_goodAcc
  constructor <;> exact List.chain'_singleton _

/-! Terminal callbacks: `onDone` / `onError`. -/

/-- Is a callback one of the two terminal callbacks? -/
def isTerminal : DifyCb → Bool
  | DifyCb.done => true
  | DifyCb.error _ => true
  | _ => false

lemma difyStep_no_terminal (ht : Bool) (acc : DifyAcc) (p : Str) :
    ∀ c ∈ (difyStep ht acc p).2, isTerminal c = false := by
  rcases difyStep_shape ht acc p with heq | ⟨ans, cid, hne, heq⟩ | ⟨th, hne, heq⟩ <;>
    rw [heq] <;> intro c hc <;> simp at hc
  · subst hc; rfl
  · subst hc; rfl

lemma foldSteps_no_terminal (ht : Bool) : ∀ (ps : List Str) (acc : DifyAcc),
    ∀ c ∈ (foldSteps ht acc ps).2, isTerminal c = false := by
  intro ps
  induction ps with
  | nil => intro acc c hc; simp [foldSteps] at hc
  | cons p ps ih =>
    intro acc c hc
    simp only [foldSteps, List.mem_append] at hc
    rcases hc with hc | hc
    · exact difyStep_no_terminal ht acc p c hc
    · exact ih _ c hc

lemma feedOne_no_terminal {ht : Bool} {st : LoopSt} {c : Str} {l : Bool}
    (h : ∀ x ∈ st.cbs, isTerminal x = false) :
    ∀ x ∈ (feedOne ht st c l).cbs, isTerminal x = false := by
  cases hf : st.finished with
  | true => rw [feedOne_finished hf]; exact h
  | false =>
    rw [feedOne_unfold hf]
    intro x hx
    simp only [List.mem_append] at hx
    rcases hx with hx | hx
    · exact h x hx
    · exact foldSteps_no_terminal ht _ st.acc x hx

lemma feedMany_no_terminal {ht : Bool} {st : LoopSt} (cs : List Str)
    (h : ∀ x ∈ st.cbs, isTerminal x = false) :
    ∀ x ∈ (feedMany ht st cs).cbs, isTerminal x = false := by
  induction cs generalizing st with
  | nil => exact h
  | cons c cs ih => exact ih (feedOne_no_terminal h)

lemma endState_no_terminal (ht : Bool) (cs : List Str) :
    ∀ x ∈ (endState ht cs).cbs, isTerminal x = false := by
  apply feedMany_no_terminal
  intro x hx
  simp [initSt] at hx

lemma feedMany_append (ht : Bool) (st : LoopSt) (cs ds : List Str) :
    feedMany ht st (cs ++ ds) = feedMany ht (feedMany ht st cs) ds := by
  simp [feedMany, List.foldl_append]

lemma feedMany_finished {ht : Bool} {st : LoopSt} (h : st.finished = true) :
    ∀ cs : List Str, feedMany ht st cs = st := by
  intro cs
  induction cs with
  | nil => rfl
  | cons c cs ih =>
    show feedMany ht (feedOne ht st c false) cs = st
    rw [feedOne_finished h, ih]

lemma difyLoopSt_finished {ht : Bool} {st : LoopSt} {e : Ending} (h : st.finished = true) :
    difyLoopSt ht st e = st.cbs ++ [DifyCb.done] := by
  simp [difyLoopSt, h]

lemma difyFramesSt_finished {ht : Bool} {st : LoopSt} {e : Ending} (h : st.finished = true) :
    difyFramesSt ht st e = st.out := by
  simp [difyFramesSt, h]

/-! Identity reconciliation lemmas. -/

lemma firstRealConv_truthy : ∀ {l : List DifyCb} {cv : Json},
    firstRealConv l = some cv → jsTruthy cv = true := by
  intro l
  induction l with
  | nil => intro cv h; exact absurd h (by simp [firstRealConv])
  | cons cb l ih =>
    intro cv h
    cases cb with
    | msg t c =>
      rw [firstRealConv] at h
      by_cases hc : truthyOpt c = true
      · rw [if_pos hc] at h
        subst h
        simpa [truthyOpt] using hc
      · rw [if_neg hc] at h
        exact ih h
    | thought t => exact ih h
    | done => exact ih h
    | error m => exact ih h

lemma sendStep_fixed {tc : Option Str} {ia hc : Bool} {s : SendSt}
    (h : truthyOpt s.store.difySessionId = true) (cb : DifyCb) :
    sendStep tc ia hc s cb = s := by
  cases cb with
  | msg t c => simp [sendStep, onMsgUpdate, h]
  | thought t => rfl
  | done => rfl
  | error m => rfl

lemma sendFold_fixed {tc : Option Str} {ia hc : Bool} : ∀ (cbs : List DifyCb) (s : SendSt),
    truthyOpt s.store.difySessionId = true →
    List.foldl (sendStep tc ia hc) s cbs = s := by
  intro cbs
  induction cbs with
  | nil => intro s _; rfl
  | cons cb cbs ih =>
    intro s h
    show List.foldl (sendStep tc ia hc) (sendStep tc ia hc s cb) cbs = s
    rw [sendStep_fixed h cb, ih s h]

lemma onMsgUpdate_truthy_after {tc : Option Str} {ia hc : Bool} {s : SendSt} {cv : Json}
    (hcv : jsTruthy cv = true) (hsid : truthyOpt s.store.difySessionId = false) :
    truthyOpt ((onMsgUpdate tc ia hc s (some cv)).store.difySessionId) = true := by
  have hguard : (truthyOpt (some cv) && !truthyOpt s.store.difySessionId) = true := by
    rw [Bool.and_eq_true]
    exact ⟨by simpa [truthyOpt] using hcv, by simp [hsid]⟩
  unfold onMsgUpdate
  rw [if_pos hguard]
  dsimp only
  cases tc with
  | none => simpa [truthyOpt] using hcv
  | some t =>
    dsimp only
    unfold updateTempDifyConversation
    cases hidx : ({ s.store with difySessionId := some cv } : ChatStore).difyConversations.findIdx?
        (fun c => idMatches c t) with
    | none => simp [hidx, truthyOpt, hcv]
    | some i =>
      simp only [hidx]
      split <;> simp [truthyOpt, hcv]

/-- The reconciler fold splits at the first delta callback carrying a truthy
conversation id: everything before it leaves the state alone, the swap fires
there, and everything after it is a no-op because the session id is now set. -/
lemma sendFold_split (tc : Option Str) (ia hcb : Bool) : ∀ (cbs : List DifyCb) (s : SendSt),
    truthyOpt s.store.difySessionId = false →
    List.foldl (sendStep tc ia hcb) s cbs =
      (match firstRealConv cbs with
       | none => s
       | some cv => onMsgUpdate tc ia hcb s (some cv)) := by
  intro cbs
  induction cbs with
  | nil => intro s _; rfl
  | cons cb cbs ih =>
    intro s h
    cases cb with
    | msg t c =>
      show List.foldl _ (sendStep tc ia hcb s (DifyCb.msg t c)) cbs = _
      by_cases hcth : truthyOpt c = true
      · cases c with
        | none => exact absurd hcth (by simp [truthyOpt])
        | some cv =>
          have hcv : jsTruthy cv = true := by simpa [truthyOpt] using hcth
          have hstep : sendStep tc ia hcb s (DifyCb.msg t (some cv)) =
              onMsgUpdate tc ia hcb s (some cv) := rfl
          rw [hstep, sendFold_fixed cbs _ (onMsgUpdate_truthy_after hcv h)]
          simp only [firstRealConv, if_pos hcth]
      · have hf : truthyOpt c = false := by
          cases hx : truthyOpt c
          · rfl
          · exact absurd hx hcth
        have hstep : sendStep tc ia hcb s (DifyCb.msg t c) = s := by
          simp [sendStep, onMsgUpdate, hf]
        rw [hstep, ih s h]
        simp only [firstRealConv, if_neg hcth]
    | thought t => exact ih s h
    | done => exact ih s h
    | error m => exact ih s h

/-- The swap at the moment it fires: with the placeholder at the head of the
conversation list, the record is replaced in place (same position, `is_temp`
cleared), the session id becomes the real id, and the notification counter is
bumped exactly when this is a new session with the callback supplied. -/
lemma onMsgUpdate_swap (tempId : Str) (ia hcb : Bool) (sid0 : Option Json)
    (old : List ConvRec) (cv : Json) (n0 : Nat)
    (hcv : jsTruthy cv = true) (hsid : truthyOpt sid0 = false) :
    onMsgUpdate (some tempId) ia hcb ⟨⟨sid0, ⟨Json.str tempId, true⟩ :: old⟩, n0⟩ (some cv) =
      ⟨⟨some cv, ⟨cv, false⟩ :: old⟩, if ia && hcb then n0 + 1 else n0⟩ := by
  have hguard : (truthyOpt (some cv) &&
      !truthyOpt (⟨⟨sid0, ⟨Json.str tempId, true⟩ :: old⟩, n0⟩ : SendSt).store.difySessionId) =
      true := by
    rw [Bool.and_eq_true]
    exact ⟨by simpa [truthyOpt] using hcv, by simp [hsid]⟩
  unfold onMsgUpdate
  rw [if_pos hguard]
  dsimp only
  unfold updateTempDifyConversation
  have hidx : List.findIdx? (fun c => idMatches c tempId)
      ((⟨Json.str tempId, true⟩ : ConvRec) :: old) = some 0 := by
    rw [List.findIdx?_cons]
    simp [idMatches]
  simp only [hidx]
  split <;> rfl

/-! Shared abort-controller slot lemmas. -/

lemma slotAfter_append {cb : Type} (v : Option Nat) (l1 l2 : List (StoreEv cb)) :
    slotAfter v (l1 ++ l2) = slotAfter (slotAfter v l1) l2 := by
  induction l1 generalizing v with
  | nil => rfl
  | cons ev l1 ih => cases ev <;> simp [slotAfter, ih]

lemma slotAfter_map_emit {cb : Type} (v : Option Nat) (l : List cb) :
    slotAfter v (l.map StoreEv.emit) = v := by
  induction l with
  | nil => rfl
  | cons c l ih => simpa [slotAfter] using ih

/-! String helpers for the marker-tolerance analysis. -/

lemma dropWhile_append_single {p : Char → Bool} {x : Char} (hx : p x = false) :
    ∀ l : Str, (l ++ [x]).dropWhile p ≠ [] := by
  intro l
  induction l with
  | nil => simp [List.dropWhile, hx]
  | cons c l ih =>
    rw [List.cons_append, List.dropWhile_cons]
    by_cases hc : p c = true
    · rw [if_pos hc]; exact ih
    · rw [if_neg hc]; simp

lemma jsTrim_cons_ne {c : Char} (hc : isJsWS c = false) (l : Str) : jsTrim (c :: l) ≠ [] := by
  unfold jsTrim
  rw [List.dropWhile_cons, if_neg (by simp [hc]), List.reverse_cons]
  intro hcontra
  exact dropWhile_append_single hc l.reverse (by simpa using hcontra)

lemma isPrefixOf_self_append (l p : Str) : l.isPrefixOf (l ++ p) = true := by
  simp

lemma isPrefixOf_append_cancel (l l1 l2 : Str) :
    (l ++ l1).isPrefixOf (l ++ l2) = l1.isPrefixOf l2 := by
  induction l with
  | nil => rfl
  | cons a l ih =>
    show (a == a && (l ++ l1).isPrefixOf (l ++ l2)) = l1.isPrefixOf l2
    simp [ih]

lemma space_marker_unmatched {p : Str} (hp : p.head? ≠ some ' ') :
    ("data: ".data).isPrefixOf (("data:".data) ++ p) = false := by
  have h1 : ("data: ".data) = ("data:".data) ++ [' '] := rfl
  rw [h1, isPrefixOf_append_cancel]
  cases p with
  | nil => rfl
  | cons c rest =>
    have hcs : c ≠ ' ' := by
      intro hcc
      exact hp (by rw [hcc]; rfl)
    show ((' ' == c) && List.isPrefixOf [] rest) = false
    simp [hcs]
    intro hcc
    exact absurd hcc.symm hcs

/-- The no-space and one-space marker forms decode to the same payload in
`streamImageChat`, provided the payload does not itself start with a space. -/
lemma imageLine_marker_equiv (acc p : Str) (hp : p.head? ≠ some ' ') :
    imageLine acc (("data:".data) ++ p) = imageLine acc (("data: ".data) ++ p) := by
  have hne1 : ¬((jsTrim (("data:".data) ++ p)).isEmpty = true) := by
    intro hEmpty
    exact @jsTrim_cons_ne 'd' rfl (("ata:".data) ++ p) (by simpa using hEmpty)
  have hne2 : ¬((jsTrim (("data: ".data) ++ p)).isEmpty = true) := by
    intro hEmpty
    exact @jsTrim_cons_ne 'd' rfl (("ata: ".data) ++ p) (by simpa using hEmpty)
  have hA1 : ("data:".data).isPrefixOf (("data:".data) ++ p) = true :=
    isPrefixOf_self_append _ _
  have hB1 : ("data:".data).isPrefixOf (("data: ".data) ++ p) = true := by
    have he : ("data: ".data) ++ p = ("data:".data) ++ (' ' :: p) := rfl
    rw [he]
    exact isPrefixOf_self_append _ _
  have hA2 : ("data: ".data).isPrefixOf (("data:".data) ++ p) = false :=
    space_marker_unmatched hp
  have hB2 : ("data: ".data).isPrefixOf (("data: ".data) ++ p) = true :=
    isPrefixOf_self_append _ _
  have hd5 : (("data:".data) ++ p).drop 5 = p := by
    have h5 : (5 : Nat) = ("data:".data).length := rfl
    rw [h5, List.drop_left]
  have hd6 : (("data: ".data) ++ p).drop 6 = p := by
    have h6 : (6 : Nat) = ("data: ".data).length := rfl
    rw [h6, List.drop_left]
  unfold imageLine
  rw [if_neg hne1, if_neg hne2, if_pos hA1, if_pos hB1]
  dsimp only
  rw [hA2, hB2]
  simp only [Bool.false_eq_true, if_false, if_true, hd5, hd6]

/-- `streamChat` recognizes only the spaced form `'data: '`: a line written
with the bare `'data:'` marker (payload not starting with a space) is simply
ignored. -/
lemma chatLine_no_space_skip (acc p : Str) (hp : p.head? ≠ some ' ') :
    chatLine acc (("data:".data) ++ p) = LineOut.cont acc [] := by
  unfold chatLine
  by_cases hb : (jsTrim (("data:".data) ++ p)).isEmpty = true
  · rw [if_pos hb]
  · rw [if_neg hb, if_neg (by rw [space_marker_unmatched hp]; simp)]

/-! Callback-trace structure of a whole `streamDifyChat` session. -/

lemma chain_drop_anchor {l : List Str} {x : Str}
    (h : List.Chain' (· <+: ·) (l ++ [x])) : List.Chain' (· <+: ·) l :=
  (List.chain'_append.mp h).1

lemma difyLoopSt_chains {ht : Bool} {st : LoopSt} {e : Ending} (h : GoodAcc st) :
    List.Chain' (· <+: ·) (msgTexts (difyLoopSt ht st e)) ∧
    List.Chain' (· <+: ·) (thoughtTexts (difyLoopSt ht st e)) := by
  cases hf : st.finished with
  | true =>
    rw [difyLoopSt_finished hf]
    constructor
    · simpa [msgTexts, List.filterMap_append] using chain_drop_anchor h.1
    · simpa [thoughtTexts, List.filterMap_append] using chain_drop_anchor h.2
  | false =>
    unfold difyLoopSt
    rw [hf]
    simp only [Bool.false_eq_true, if_false]
    cases e with
    | eos =>
      have h2 := @feedOne_goodAcc ht st [] true h
      constructor
      · simpa [msgTexts, List.filterMap_append] using chain_drop_anchor h2.1
      · simpa [thoughtTexts, List.filterMap_append] using chain_drop_anchor h2.2
    | abort => exact ⟨chain_drop_anchor h.1, chain_drop_anchor h.2⟩
    | netfail m =>
      constructor
      · simpa [msgTexts, List.filterMap_append] using chain_drop_anchor h.1
      · simpa [thoughtTexts, List.filterMap_append] using chain_drop_anchor h.2

/-- Every session trace is a run of non-terminal callbacks followed by at most
one terminal callback; the terminal callback is absent exactly on the
cancellation path (when the loop did not already see `[DONE]`). -/
lemma difyCallbacks_shape (ht : Bool) (cs : List Str) (e : Ending) :
    ∃ pre tail, difyCallbacks ht cs e = pre ++ tail ∧
      (∀ x ∈ pre, isTerminal x = false) ∧
      (tail = [DifyCb.done] ∨ tail = [] ∨ ∃ m, tail = [DifyCb.error m]) ∧
      (e ≠ Ending.abort → ∃ t, tail = [t] ∧ isTerminal t = true) := by
  cases hf : (endState ht cs).finished with
  | true =>
    refine ⟨(endState ht cs).cbs, [DifyCb.done], ?_, endState_no_terminal ht cs,
      Or.inl rfl, fun _ => ⟨DifyCb.done, rfl, rfl⟩⟩
    unfold difyCallbacks
    rw [difyLoopSt_finished hf]
  | false =>
    unfold difyCallbacks difyLoopSt
    rw [hf]
    simp only [Bool.false_eq_true, if_false]
    cases e with
    | eos =>
      exact ⟨(feedOne ht (endState ht cs) [] true).cbs, [DifyCb.done], rfl,
        feedOne_no_terminal (endState_no_terminal ht cs),
        Or.inl rfl, fun _ => ⟨DifyCb.done, rfl, rfl⟩⟩
    | abort =>
      refine ⟨(endState ht cs).cbs, [], by simp, endState_no_terminal ht cs,
        Or.inr (Or.inl rfl), fun hcontra => absurd rfl hcontra⟩
    | netfail m =>
      exact ⟨(endState ht cs).cbs, [DifyCb.error m], rfl, endState_no_terminal ht cs,
        Or.inr (Or.inr ⟨m, rfl⟩), fun _ => ⟨DifyCb.error m, rfl, rfl⟩⟩

/-! Concrete sample streams used by witnesses and counterexamples. -/

/-- A first answer frame carrying a conversation id. -/
def sampleHel : Str :=
  ("data: \x7b\"event\":\"message\",\"answer\":\"Hel\",\"conversation_id\":\"c1\"\x7d\n\n".data)

/-- A second answer frame followed by the termination sentinel. -/
def sampleLoDone : Str :=
  ("data: \x7b\"event\":\"message\",\"answer\":\"lo\"\x7d\n\ndata: [DONE]\n\n".data)

/-- A protocol `error` event frame. -/
def sampleError : Str :=
  ("data: \x7b\"event\":\"error\",\"message\":\"quota exceeded\"\x7d\n\n".data)

/-- Two valid answer frames flanking a malformed (non-JSON) frame, then the
sentinel, all in one chunk, in the Dify wire format. -/
def sampleMixed : Str :=
  ("data: \x7b\"event\":\"message\",\"answer\":\"A\"\x7d\n\ndata: oops\x7d\x7b\n\ndata: \x7b\"event\":\"message\",\"answer\":\"B\"\x7d\n\ndata: [DONE]\n\n".data)

/-- The same mixed scenario in the newline-framed `streamChat` format. -/
def sampleMixedChat : Str :=
  ("data: \x7b\"content\":\"A\"\x7d\ndata: oops\x7d\x7b\ndata: \x7b\"content\":\"B\"\x7d\ndata: [DONE]\n".data)

/-- One answer frame made complete by the arrival of the next marker, with the
stream then cancelled. -/
def sampleHiOpen : Str :=
  ("data: \x7b\"event\":\"message\",\"answer\":\"Hi\"\x7d\n\ndata: ".data)

/-- A frame whose marker is written without the space after the colon. -/
def sampleNoSpace : Str :=
  ("data:\x7b\"event\":\"message\",\"answer\":\"Hi\"\x7d\n\n".data)

/-- An answer frame, the sentinel, and a further frame after the sentinel. -/
def sampleDoneEarly : Str :=
  ("data: \x7b\"event\":\"message\",\"answer\":\"A\"\x7d\n\ndata: [DONE]\n\ndata: \x7b\"event\":\"message\",\"answer\":\"B\"\x7d\n\n".data)

/-- A message event with an empty answer delta but a non-empty conversation id. -/
def sampleEmptyAnswer : Str :=
  ("data: \x7b\"event\":\"message\",\"answer\":\"\",\"conversation_id\":\"c1\"\x7d\n\ndata: [DONE]\n\n".data)

/-- Two message events repeating the same conversation id. -/
def sampleConvTwice : Str :=
  ("data: \x7b\"event\":\"message\",\"answer\":\"A\",\"conversation_id\":\"c1\"\x7d\n\ndata: \x7b\"event\":\"message\",\"answer\":\"B\",\"conversation_id\":\"c1\"\x7d\n\ndata: [DONE]\n\n".data)

/-! Claims. -/

/-- C1: the claim says an explicit `error` event aborts the session via
`onError` with the server-supplied message and `onDone` never fires.  The code
contradicts it: the `throw` for `event === 'error'` is caught by the very same
empty `catch` that guards `JSON.parse`, so the error event is silently
swallowed and the session completes with `onDone`.  This theorem evaluates the
model at the failing input: the payload does classify as an `error` event with
message `quota exceeded`, yet the session trace is exactly `[onDone]` — no
`onError`, and `onDone` fires. -/
theorem c1_error_event_swallowed :
    ((parseJson ("\x7b\"event\":\"error\",\"message\":\"quota exceeded\"\x7d".data)).bind
        (fun d => jsGet d ("event".data))) = some (Json.str ("error".data)) ∧
    ((parseJson ("\x7b\"event\":\"error\",\"message\":\"quota exceeded\"\x7d".data)).bind
        (fun d => jsGet d ("message".data))) = some (Json.str ("quota exceeded".data)) ∧
    difyCallbacks true [sampleError] Ending.eos = [DifyCb.done] ∧
    difyCallbacks true [sampleError, sampleLoDone] Ending.eos =
      [DifyCb.msg ("lo".data) none, DifyCb.done] := by
  refine ⟨rfl, rfl, rfl, rfl⟩

/-- C2: chunking invariance of the re-scanning decoder of `streamDifyChat` —
for every chunk list (any split of the text, including splits inside the
marker) and every ending, the decoded payload list and the entire callback
trace coincide with those of feeding the whole concatenated text as a single
chunk. -/
theorem c2_chunking_invariance : ∀ (chunks : List Str) (ht : Bool) (e : Ending),
    difyPayloads ht chunks e = difyPayloads ht [chunks.flatten] e ∧
    difyCallbacks ht chunks e = difyCallbacks ht [chunks.flatten] e := by
  intro cs ht e
  have h := endState_flatten ht cs
  exact ⟨difyFramesSt_congr h, difyLoopSt_congr h⟩

/-- C2 witness: a marker split across two chunks decodes identically to the
concatenated text. -/
theorem c2_witness :
    difyCallbacks true [("dat".data), ("a: \x7b\"event\":\"message\",\"answer\":\"Hi\"\x7d\n\n".data)] Ending.eos =
      difyCallbacks true [(List.flatten [("dat".data), ("a: \x7b\"event\":\"message\",\"answer\":\"Hi\"\x7d\n\n".data)])] Ending.eos :=
  (c2_chunking_invariance [("dat".data), ("a: \x7b\"event\":\"message\",\"answer\":\"Hi\"\x7d\n\n".data)] true Ending.eos).2

/-- C3 counterexample: in `streamDifyChat` a frame whose payload fails
`JSON.parse` is decoded (it appears in the payload list) but silently dropped
by the empty `catch`: the claim's promised raw-text delta never happens.  The
session trace of the mixed stream contains only the two valid answers and
`onDone`; the payload `oops\x7d\x7b` is surfaced in no callback. -/
theorem c3_counterexample :
    parseJson ("oops\x7d\x7b".data) = none ∧
    difyPayloads true [sampleMixed] Ending.eos =
      [("\x7b\"event\":\"message\",\"answer\":\"A\"\x7d".data), ("oops\x7d\x7b".data),
       ("\x7b\"event\":\"message\",\"answer\":\"B\"\x7d".data)] ∧
    difyCallbacks true [sampleMixed] Ending.eos =
      [DifyCb.msg ("A".data) none, DifyCb.msg ("AB".data) none, DifyCb.done] := by
  refine ⟨rfl, rfl, rfl⟩

/-- C3 amended: the raw-text degradation holds in `streamChat` — a payload
that fails to parse is appended verbatim to the cumulative answer and surfaced
via the delta callback — while in `streamDifyChat` such a frame is silently
skipped (state unchanged, no callback); in both pipelines the stream is not
aborted and subsequent valid frames are processed in order (witnessed by the
concrete mixed run, whose valid frames all surface in order). -/
theorem c3_raw_text_fallback :
    (∀ (acc d : Str), parseJson d = none →
      chatStep acc d = (acc ++ d, [TextCb.msg (acc ++ d)])) ∧
    (∀ (ht : Bool) (acc : DifyAcc) (p : Str), parseJson p = none →
      difyStep ht acc p = (acc, [])) ∧
    chatCallbacks [sampleMixedChat] Ending.eos =
      [TextCb.msg ("A".data), TextCb.msg ("Aoops\x7d\x7b".data),
       TextCb.msg ("Aoops\x7d\x7bB".data), TextCb.done] := by
  refine ⟨?_, ?_, rfl⟩
  · intro acc d h
    simp [chatStep, h]
  · intro ht acc p h
    simp [difyStep, h]

/-- C3 witness: the fallback equations evaluated at the concrete malformed
payload. -/
theorem c3_witness :
    chatStep ("A".data) ("oops\x7d\x7b".data) =
      ("Aoops\x7d\x7b".data, [TextCb.msg ("Aoops\x7d\x7b".data)]) ∧
    difyStep true ⟨("A".data), []⟩ ("oops\x7d\x7b".data) = (⟨("A".data), []⟩, []) :=
  ⟨c3_raw_text_fallback.1 ("A".data) ("oops\x7d\x7b".data) rfl,
   c3_raw_text_fallback.2.1 true ⟨("A".data), []⟩ ("oops\x7d\x7b".data) rfl⟩

/-- C4: monotone accumulation — in every `streamDifyChat` session the
successive cumulative answer values form a prefix chain (each extends the
previous), likewise the cumulative thought values, and a fresh session starts
both accumulators at the empty string. -/
theorem c4_monotone_accumulation : ∀ (ht : Bool) (cs : List Str) (e : Ending),
    List.Chain' (· <+: ·) (msgTexts (difyCallbacks ht cs e)) ∧
    List.Chain' (· <+: ·) (thoughtTexts (difyCallbacks ht cs e)) ∧
    initSt.acc.fullText = [] ∧ initSt.acc.fullThought = [] := by
  intro ht cs e
  have h := @difyLoopSt_chains ht (endState ht cs) e (endState_goodAcc ht cs)
  exact ⟨h.1, h.2, rfl, rfl⟩

/-- C4 witness: the prefix chain on a concrete two-delta session. -/
theorem c4_witness :
    List.Chain' (· <+: ·) (msgTexts (difyCallbacks true [sampleHel, sampleLoDone] Ending.eos)) :=
  (c4_monotone_accumulation true [sampleHel, sampleLoDone] Ending.eos).1

/-- C5 counterexample: a session cancelled after its first delta fires neither
`onDone` nor `onError` — zero terminal callbacks, not exactly one as the claim
demands for every session. -/
theorem c5_counterexample :
    difyCallbacks true [sampleHiOpen] Ending.abort = [DifyCb.msg ("Hi".data) none] ∧
    List.countP (fun c => isTerminal c) (difyCallbacks true [sampleHiOpen] Ending.abort) = 0 := by
  refine ⟨rfl, rfl⟩

/-- C5 amended: at most one terminal callback fires per session, nothing
follows it (every callback before the last is non-terminal), and exactly one
terminal callback fires whenever the session is not cancelled; a session
cancelled before completion fires none. -/
theorem c5_terminal_discipline : ∀ (ht : Bool) (cs : List Str) (e : Ending),
    (∀ x ∈ (difyCallbacks ht cs e).dropLast, isTerminal x = false) ∧
    List.countP (fun c => isTerminal c) (difyCallbacks ht cs e) ≤ 1 ∧
    (e ≠ Ending.abort → List.countP (fun c => isTerminal c) (difyCallbacks ht cs e) = 1) := by
  intro ht cs e
  obtain ⟨pre, tail, heq, hpre, htail, hterm⟩ := difyCallbacks_shape ht cs e
  have hpre0 : List.countP (fun c => isTerminal c) pre = 0 :=
    List.countP_eq_zero.mpr fun a ha => by rw [hpre a ha]; simp
  refine ⟨?_, ?_, ?_⟩
  · rw [heq]
    rcases htail with rfl | rfl | ⟨m, rfl⟩
    · rw [List.dropLast_concat]; exact hpre
    · rw [List.append_nil]
      intro x hx
      exact hpre x ((List.dropLast_sublist pre).subset hx)
    · rw [List.dropLast_concat]; exact hpre
  · rw [heq, List.countP_append, hpre0]
    rcases htail with rfl | rfl | ⟨m, rfl⟩ <;> simp [List.countP_cons, isTerminal]
  · intro hne
    obtain ⟨t, rfl, htt⟩ := hterm hne
    rw [heq, List.countP_append, hpre0]
    simp [List.countP_cons, htt]

/-- C5 witness: on a normal end of stream, exactly one terminal callback
fires. -/
theorem c5_witness :
    List.countP (fun c => isTerminal c)
      (difyCallbacks true [sampleHel, sampleLoDone] Ending.eos) = 1 :=
  (c5_terminal_discipline true [sampleHel, sampleLoDone] Ending.eos).2.2 (by simp)

/-- C6 counterexample: the stream delivers a `message` event whose
`conversation_id` is the non-empty string `c1` while the session's known id is
absent — the claim demands the placeholder swap and the one-shot notification.
But because the event's `answer` is empty, `onMessage` never fires and the
reconciler never runs: the placeholder keeps its temp id (`is_temp` still
set), the session id stays absent, and zero notifications are delivered. -/
theorem c6_counterexample :
    ((parseJson ("\x7b\"event\":\"message\",\"answer\":\"\",\"conversation_id\":\"c1\"\x7d".data)).bind
        (fun d => jsGet d ("conversation_id".data))) = some (Json.str ("c1".data)) ∧
    ((parseJson ("\x7b\"event\":\"message\",\"answer\":\"\",\"conversation_id\":\"c1\"\x7d".data)).bind
        (fun d => jsGet d ("event".data))) = some (Json.str ("message".data)) ∧
    runSendMessage ⟨none, []⟩ ("t1".data) true [sampleEmptyAnswer] Ending.eos =
      ⟨⟨none, [⟨Json.str ("t1".data), true⟩]⟩, 0⟩ := by
  refine ⟨rfl, rfl, rfl⟩

/-- C6 amended: for a session starting without a (truthy) conversation id, a
placeholder record is prepended at send time, and on the first delta callback
carrying a non-empty answer and a truthy `conversation_id` while the session
id is still absent, the placeholder is replaced in place (same list position,
`is_temp` cleared, other records untouched), the session id is set, and
`onConversationCreated` fires exactly once — never again, even if later events
repeat the same id; if no such delta arrives, the placeholder and the absent
id persist and no notification fires.  A session starting with a truthy
conversation id never creates a placeholder and never swaps or notifies. -/
theorem c6_single_swap : ∀ (st : ChatStore) (tempId : Str) (hasCb : Bool)
    (cs : List Str) (e : Ending),
    (truthyOpt st.difySessionId = false →
      runSendMessage st tempId hasCb cs e =
        (match firstRealConv (difyCallbacks false cs e) with
         | none => ⟨⟨st.difySessionId, ⟨Json.str tempId, true⟩ :: st.difyConversations⟩, 0⟩
         | some cv => ⟨⟨some cv, ⟨cv, false⟩ :: st.difyConversations⟩,
             if hasCb then 1 else 0⟩)) ∧
    (truthyOpt st.difySessionId = true →
      runSendMessage st tempId hasCb cs e = ⟨st, 0⟩) := by
  intro st tempId hasCb cs e
  constructor
  · intro h
    unfold runSendMessage
    rw [h]
    simp only [Bool.not_false, if_true]
    have hsf := sendFold_split (some tempId) true hasCb (difyCallbacks false cs e)
        ⟨addTempDifyConversation st tempId, 0⟩
        (by simpa [addTempDifyConversation] using h)
    rw [hsf]
    cases hfc : firstRealConv (difyCallbacks false cs e) with
    | none => rfl
    | some cv =>
      have hcv := firstRealConv_truthy hfc
      exact onMsgUpdate_swap tempId true hasCb st.difySessionId st.difyConversations cv 0 hcv h
  · intro h
    unfold runSendMessage
    rw [h]
    simp only [Bool.not_true, if_false]
    exact sendFold_fixed (difyCallbacks false cs e) ⟨st, 0⟩ h

/-- C6 witness: a fresh session whose stream repeats the same conversation id
swaps the placeholder once and notifies once; a session with a known id is
left entirely alone. -/
theorem c6_witness :
    runSendMessage ⟨none, []⟩ ("t1".data) true [sampleConvTwice] Ending.eos =
      ⟨⟨some (Json.str ("c1".data)), [⟨Json.str ("c1".data), false⟩]⟩, 1⟩ ∧
    runSendMessage ⟨some (Json.str ("k".data)), []⟩ ("t1".data) true [sampleConvTwice] Ending.eos =
      ⟨⟨some (Json.str ("k".data)), []⟩, 0⟩ := by
  constructor
  · have h := (c6_single_swap ⟨none, []⟩ ("t1".data) true [sampleConvTwice] Ending.eos).1 rfl
    rw [h]
    rfl
  · exact (c6_single_swap ⟨some (Json.str ("k".data)), []⟩ ("t1".data) true
      [sampleConvTwice] Ending.eos).2 rfl

/-- C7: cancellation is silent — when the abort takes effect at the next
awaited read (the loop not having already terminated), the session trace is
exactly the callbacks that had fired before the cancellation: no `onError`, no
`onDone`, no further delta or thought callback. -/
theorem c7_cancel_silent : ∀ (ht : Bool) (cs : List Str),
    (endState ht cs).finished = false →
    difyCallbacks ht cs Ending.abort = (endState ht cs).cbs ∧
    ∀ x ∈ difyCallbacks ht cs Ending.abort, isTerminal x = false := by
  intro ht cs h
  have he : difyCallbacks ht cs Ending.abort = (endState ht cs).cbs := by
    unfold difyCallbacks difyLoopSt
    rw [h]
    simp
  refine ⟨he, ?_⟩
  rw [he]
  exact endState_no_terminal ht cs

/-- C7 witness: a session cancelled after its first delta delivers exactly
that delta and nothing more. -/
theorem c7_witness :
    difyCallbacks true [sampleHiOpen] Ending.abort = (endState true [sampleHiOpen]).cbs ∧
    ∀ x ∈ difyCallbacks true [sampleHiOpen] Ending.abort, isTerminal x = false :=
  c7_cancel_silent true [sampleHiOpen] rfl

/-- C8: once a decoded payload equals the `[DONE]` sentinel, the loop's done
flag is set: any further transport chunks are never read, no further frame is
classified or surfaced (the remaining buffered text is discarded inside the
scanning pass), and the session proceeds directly to completion — the trace is
the callbacks so far followed by `onDone`, whatever the ending. -/
theorem c8_done_sentinel : ∀ (ht : Bool) (cs rest : List Str) (e : Ending),
    (endState ht cs).finished = true →
    endState ht (cs ++ rest) = endState ht cs ∧
    difyCallbacks ht (cs ++ rest) e = (endState ht cs).cbs ++ [DifyCb.done] ∧
    difyPayloads ht (cs ++ rest) e = (endState ht cs).out := by
  intro ht cs rest e h
  have h1 : endState ht (cs ++ rest) = endState ht cs := by
    unfold endState
    rw [feedMany_append]
    exact feedMany_finished h rest
  refine ⟨h1, ?_, ?_⟩
  · unfold difyCallbacks
    rw [h1, difyLoopSt_finished h]
  · unfold difyPayloads
    rw [h1, difyFramesSt_finished h]

/-- C8 witness: with `[DONE]` in the middle of the first chunk, the frame
after the sentinel and a whole further chunk are both discarded. -/
theorem c8_witness :
    endState true ([sampleDoneEarly] ++ [sampleHel]) = endState true [sampleDoneEarly] ∧
    difyCallbacks true ([sampleDoneEarly] ++ [sampleHel]) Ending.eos =
      (endState true [sampleDoneEarly]).cbs ++ [DifyCb.done] ∧
    difyPayloads true ([sampleDoneEarly] ++ [sampleHel]) Ending.eos =
      (endState true [sampleDoneEarly]).out :=
  c8_done_sentinel true [sampleDoneEarly] [sampleHel] Ending.eos rfl

/-- C9 counterexample: a wire frame written `data:{...}` (no space after the
colon) is not recognized by the re-scanning decoder of `streamDifyChat` — no
payload is decoded and no delta fires, while `streamImageChat` decodes the
very same line to the payload.  This refutes the claim that "the decoder"
accepts both marker forms. -/
theorem c9_counterexample :
    difyPayloads true [sampleNoSpace] Ending.eos = [] ∧
    difyCallbacks true [sampleNoSpace] Ending.eos = [DifyCb.done] ∧
    imageCallbacks [("data:\x7b\"content\":\"Hi\"\x7d\n".data)] Ending.eos =
      [TextCb.msg ("Hi".data), TextCb.done] := by
  refine ⟨rfl, rfl, rfl⟩

/-- C9 amended: only `streamImageChat`'s line decoder accepts both `data:`
and `data: ` (yielding the same payload whenever the payload does not itself
start with a space); `streamChat`'s line decoder ignores the no-space form
entirely, and `streamDifyChat`'s re-scanning decoder searches only for the
spaced marker (see the counterexample). -/
theorem c9_marker_tolerance :
    (∀ (acc p : Str), p.head? ≠ some ' ' →
      imageLine acc (("data:".data) ++ p) = imageLine acc (("data: ".data) ++ p)) ∧
    (∀ (acc p : Str), p.head? ≠ some ' ' →
      chatLine acc (("data:".data) ++ p) = LineOut.cont acc []) :=
  ⟨imageLine_marker_equiv, chatLine_no_space_skip⟩

/-- C9 witness: the two marker forms evaluated at a concrete JSON payload. -/
theorem c9_witness :
    imageLine ([] : Str) (("data:".data) ++ ("\x7b\"content\":\"Hi\"\x7d".data)) =
      imageLine ([] : Str) (("data: ".data) ++ ("\x7b\"content\":\"Hi\"\x7d".data)) ∧
    chatLine ([] : Str) (("data:".data) ++ ("\x7b\"content\":\"Hi\"\x7d".data)) =
      LineOut.cont [] [] :=
  ⟨c9_marker_tolerance.1 [] ("\x7b\"content\":\"Hi\"\x7d".data) (by decide),
   c9_marker_tolerance.2 [] ("\x7b\"content\":\"Hi\"\x7d".data) (by decide)⟩

/-- Shape of every streaming call's store-event trace: the shared slot is
written with the call's own controller, then the request opens, the body
writes no further controller, and the `finally` reset is the last event; the
slot ends up `null` regardless of what preceded the call. -/
lemma trace_shape {cb : Type} (cid : Nat) (l : List cb) (v : Option Nat)
    (pre : List (StoreEv cb)) :
    (∀ x ∈ l.map (StoreEv.emit), ∀ c, x ≠ StoreEv.setCtrl c) ∧
    slotAfter v (pre ++ (StoreEv.setCtrl (some cid) :: StoreEv.openReq ::
      (l.map StoreEv.emit ++ [StoreEv.setCtrl none]))) = none := by
  constructor
  · intro x hx c
    simp only [List.mem_map] at hx
    obtain ⟨a, -, rfl⟩ := hx
    simp
  · rw [slotAfter_append]
    show slotAfter (some cid) (l.map StoreEv.emit ++ [StoreEv.setCtrl none]) = none
    rw [slotAfter_append, slotAfter_map_emit]
    rfl

/-- C10: each of `streamChat`, `streamImageChat` and `streamDifyChat` assigns
the freshly created controller to the single shared `abortController` slot
before the request is opened, writes the slot nowhere else in its body, and
resets it to `null` as its final action on every exit path (normal completion,
transport failure, and cancellation alike); because all three act on the same
slot with plain last-write-wins assignment, after any call completes — no
matter what earlier calls left there — the slot is `null`, and any later
overlapping call's initial write overwrites an earlier call's controller. -/
theorem c10_abort_slot : ∀ (cid : Nat) (ht : Bool) (cs cs2 cs3 : List Str)
    (e e2 e3 : Ending) (v : Option Nat)
    (pre1 : List (StoreEv DifyCb)) (pre2 pre3 : List (StoreEv TextCb)),
    (∃ mid, streamDifyChat cid ht cs e =
        StoreEv.setCtrl (some cid) :: StoreEv.openReq :: (mid ++ [StoreEv.setCtrl none]) ∧
        ∀ x ∈ mid, ∀ c, x ≠ StoreEv.setCtrl c) ∧
    slotAfter v (pre1 ++ streamDifyChat cid ht cs e) = none ∧
    (∃ mid, streamChat cid cs2 e2 =
        StoreEv.setCtrl (some cid) :: StoreEv.openReq :: (mid ++ [StoreEv.setCtrl none]) ∧
        ∀ x ∈ mid, ∀ c, x ≠ StoreEv.setCtrl c) ∧
    slotAfter v (pre2 ++ streamChat cid cs2 e2) = none ∧
    (∃ mid, streamImageChat cid cs3 e3 =
        StoreEv.setCtrl (some cid) :: StoreEv.openReq :: (mid ++ [StoreEv.setCtrl none]) ∧
        ∀ x ∈ mid, ∀ c, x ≠ StoreEv.setCtrl c) ∧
    slotAfter v (pre3 ++ streamImageChat cid cs3 e3) = none := by
  intro cid ht cs cs2 cs3 e e2 e3 v pre1 pre2 pre3
  exact ⟨⟨(difyCallbacks ht cs e).map StoreEv.emit, rfl,
      (trace_shape cid (difyCallbacks ht cs e) v pre1).1⟩,
    (trace_shape cid (difyCallbacks ht cs e) v pre1).2,
    ⟨(chatCallbacks cs2 e2).map StoreEv.emit, rfl,
      (trace_shape cid (chatCallbacks cs2 e2) v pre2).1⟩,
    (trace_shape cid (chatCallbacks cs2 e2) v pre2).2,
    ⟨(imageCallbacks cs3 e3).map StoreEv.emit, rfl,
      (trace_shape cid (imageCallbacks cs3 e3) v pre3).1⟩,
    (trace_shape cid (imageCallbacks cs3 e3) v pre3).2⟩

/-- C10 witness: a concrete completed call leaves the shared slot `null` even
after a previous call's trace. -/
theorem c10_witness :
    slotAfter (some 3) (streamDifyChat 3 true [sampleHel] (Ending.netfail ("boom".data)) ++
      streamDifyChat 5 true [sampleHel, sampleLoDone] Ending.eos) = none :=
  (c10_abort_slot 5 true [sampleHel, sampleLoDone] [] [] Ending.eos Ending.eos Ending.eos
    (some 3) (streamDifyChat 3 true [sampleHel] (Ending.netfail ("boom".data))) [] []).2.1

end Trai
